import Mathlib

/-!
# Verification of the code-collector / code-cleaner text engine

Shallow embedding of the Python sources `src/scripts/code_cleaner.py` and
`src/scripts/code_collector.py` (and the reduced copy `src/code_collector.py`),
together with proofs settling the frozen claims about them.

Conventions:
* Python strings are `String` / `List Char`; Python `int` is `Int` (or `Nat`
  where the source value is provably non-negative); Python lists are `List`.
* Python dicts with a fixed key set become structures; a dict key that may be
  absent becomes an `Option` field.
* Externally supplied predicates and plumbing (the `_is_core_file` priority
  predicate, filesystem lookups, language detection, regex tables for
  languages other than `.py`) are parameters, as the specification itself
  treats them as external collaborators.
-/

namespace CodeFeeder

/-! ## `code_cleaner.hollow_out_function_bodies`

The skeletonizer appends either single characters or the placeholder string
`" /* ... */ "` to its output list.  We model each appended item as a `Tok`,
and the Python check `output and output[-1] == '{'` as the `lastOpen` flag:
it is true exactly when the output is nonempty and the most recently appended
item is the one-character string `"{"`. -/

inductive Tok where
  | ch (c : Char)
  | ph
deriving DecidableEq, Repr

/-- The characters of the placeholder string `" /* ... */ "` appended at
line 63 of `code_cleaner.py`. -/
def placeholderChars : List Char :=
  [' ', '/', '*', ' ', '.', '.', '.', ' ', '*', '/', ' ']

/-- Scanner state of `hollow_out_function_bodies`: `brace_depth` (a Python
`int`, which the source lets go negative), the two literal flags, and the
`output[-1] == '{'` observation. -/
structure HState where
  depth : Int
  inString : Bool
  inChar : Bool
  lastOpen : Bool
deriving DecidableEq, Repr

def HState.init : HState := ⟨0, false, false, false⟩

/-- One iteration of the `while i < length` loop of
`hollow_out_function_bodies` (lines 30-65 of `code_cleaner.py`).
`prev` is `content[i-1]` (`none` at `i = 0`).  Returns the new state and the
items appended to `output` during this iteration. -/
def hstep (prev : Option Char) (c : Char) (st : HState) : HState × List Tok :=
  if c = '"' ∧ prev ≠ some '\\' then
    ({ st with inString := !st.inString, lastOpen := c == '{' }, [.ch c])
  else if c = '\'' ∧ prev ≠ some '\\' then
    ({ st with inChar := !st.inChar, lastOpen := c == '{' }, [.ch c])
  else if st.inString ∨ st.inChar then
    ({ st with lastOpen := c == '{' }, [.ch c])
  else if c = '{' then
    if st.depth = 0 then
      ({ st with depth := st.depth + 1, lastOpen := true }, [.ch '{'])
    else
      ({ st with depth := st.depth + 1 }, [])
  else if c = '}' then
    if st.depth - 1 = 0 then
      ({ st with depth := st.depth - 1, lastOpen := false }, [.ch '}'])
    else
      ({ st with depth := st.depth - 1 }, [])
  else
    if st.depth = 0 then
      ({ st with lastOpen := c == '{' }, [.ch c])
    else if st.depth = 1 ∧ st.lastOpen then
      ({ st with lastOpen := false }, [.ph])
    else
      (st, [])

/-- The full scan loop: threads the previous character and the state. -/
def hrun (prev : Option Char) (st : HState) : List Char → HState × List Tok
  | [] => (st, [])
  | c :: cs =>
    let p := hstep prev c st
    let q := hrun (some c) p.1 cs
    (q.1, p.2 ++ q.2)

def renderTok : Tok → List Char
  | .ch c => [c]
  | .ph => placeholderChars

/-- `"".join(output)` on the token list. -/
def render (ts : List Tok) : List Char := (ts.map renderTok).flatten

/-- `hollow_out_function_bodies` on character lists. -/
def hollowChars (cs : List Char) : List Char :=
  render (hrun none HState.init cs).2

/-- `code_cleaner.hollow_out_function_bodies` (lines 12-67). -/
def hollow_out_function_bodies (content : String) : String :=
  ⟨hollowChars content.data⟩

example : hollow_out_function_bodies "int f(int a)\x7b return a; \x7d" =
    "int f(int a)\x7b /* ... */ \x7d" := by decide

example : hollow_out_function_bodies "\x7ba\x7b b \x7dc\x7d" =
    "\x7b /* ... */ \x7d" := by decide

/-! ### Basic scanner lemmas -/

/-- A text without quote characters: the literal-tracking branches of the
scanner are never taken on it. -/
def quoteFree (cs : List Char) : Prop := ∀ c ∈ cs, c ≠ '"' ∧ c ≠ '\''

instance (cs : List Char) : Decidable (quoteFree cs) := by
  unfold quoteFree; infer_instance

theorem hstep_of_ne (p q : Option Char) (c : Char) (st : HState)
    (hc1 : c ≠ '"') (hc2 : c ≠ '\'') : hstep p c st = hstep q c st := by
  simp [hstep, hc1, hc2]

theorem hrun_prev_irrel (cs : List Char) (h : quoteFree cs)
    (p q : Option Char) (st : HState) : hrun p st cs = hrun q st cs := by
  cases cs with
  | nil => rfl
  | cons c cs =>
    have hc := h c (List.mem_cons_self _ _)
    simp only [hrun]
    rw [hstep_of_ne p q c st hc.1 hc.2]

/-- The character of the input preceding the suffix `b` when the whole
input is `a ++ b` and the character before `a` was `p`. -/
def lastPrev (p : Option Char) (a : List Char) : Option Char :=
  match a.getLast? with
  | some c => some c
  | none => p

theorem lastPrev_cons (p : Option Char) (c : Char) (a : List Char) :
    lastPrev p (c :: a) = lastPrev (some c) a := by
  cases a <;> simp [lastPrev, List.getLast?]

theorem hrun_append (p : Option Char) (st : HState) (a b : List Char) :
    hrun p st (a ++ b) =
      ((hrun (lastPrev p a) (hrun p st a).1 b).1,
        (hrun p st a).2 ++ (hrun (lastPrev p a) (hrun p st a).1 b).2) := by
  induction a generalizing p st with
  | nil => simp [hrun, lastPrev]
  | cons c a ih =>
    simp only [List.cons_append, hrun, lastPrev_cons, List.append_eq]
    rw [ih]
    simp [List.append_assoc]

theorem render_append (t₁ t₂ : List Tok) :
    render (t₁ ++ t₂) = render t₁ ++ render t₂ := by
  simp [render]

theorem hstep_clean (p : Option Char) (c : Char) (st : HState)
    (hc1 : c ≠ '"') (hc2 : c ≠ '\'') :
    (hstep p c st).1.inString = st.inString ∧
      (hstep p c st).1.inChar = st.inChar := by
  simp only [hstep, hc1, hc2, false_and, if_false]
  split
  · exact ⟨rfl, rfl⟩
  · split <;> split <;> first | exact ⟨rfl, rfl⟩ | skip
    all_goals split <;> try split
    all_goals exact ⟨rfl, rfl⟩

/-! ### Re-scanning the scanner's own output (quote-free inputs)

On a quote-free input the scanner's output consists of depth-0 characters,
boundary braces and placeholders.  Re-running the scanner over that output
reproduces it token for token: the state of the second run mirrors the state
of the first run with the depth clamped into `{0, 1}`. -/

def mirror (st : HState) : HState :=
  ⟨if 1 ≤ st.depth then 1 else 0, false, false, st.lastOpen⟩

theorem mirror_init : mirror HState.init = HState.init := by decide

theorem hrun_placeholder (q : Option Char) :
    hrun q ⟨1, false, false, true⟩ placeholderChars =
      (⟨1, false, false, false⟩, [.ph]) := by
  rw [hrun_prev_irrel placeholderChars (by decide) q none]
  decide

/-! Evaluation lemmas for single steps of the scanner on clean states. -/

theorem hstep_open_zero (p : Option Char) (lo : Bool) :
    hstep p '{' ⟨0, false, false, lo⟩ = (⟨1, false, false, true⟩, [.ch '{']) := by
  rw [hstep_of_ne p none _ _ (by decide) (by decide)]
  cases lo <;> decide

theorem hstep_open_pos (p : Option Char) (d : Int) (lo : Bool) (hd : d ≠ 0) :
    hstep p '{' ⟨d, false, false, lo⟩ = (⟨d + 1, false, false, lo⟩, []) := by
  rw [hstep_of_ne p none _ _ (by decide) (by decide)]
  simp +decide [hstep, hd]

theorem hstep_close_one (p : Option Char) (lo : Bool) :
    hstep p '}' ⟨1, false, false, lo⟩ = (⟨0, false, false, false⟩, [.ch '}']) := by
  rw [hstep_of_ne p none _ _ (by decide) (by decide)]
  cases lo <;> decide

theorem hstep_close_ne (p : Option Char) (d : Int) (lo : Bool) (hd : d ≠ 1) :
    hstep p '}' ⟨d, false, false, lo⟩ = (⟨d - 1, false, false, lo⟩, []) := by
  rw [hstep_of_ne p none _ _ (by decide) (by decide)]
  have hd' : ¬(d - 1 = 0) := by omega
  simp +decide [hstep, hd']

theorem hstep_other_zero (p : Option Char) (c : Char) (lo : Bool)
    (hc1 : c ≠ '"') (hc2 : c ≠ '\'') (hob : c ≠ '{') (hcb : c ≠ '}') :
    hstep p c ⟨0, false, false, lo⟩ = (⟨0, false, false, false⟩, [.ch c]) := by
  have : (c == '{') = false := by simp [hob]
  simp [hstep, hc1, hc2, hob, hcb, this]

theorem hstep_other_ph (p : Option Char) (c : Char)
    (hc1 : c ≠ '"') (hc2 : c ≠ '\'') (hob : c ≠ '{') (hcb : c ≠ '}') :
    hstep p c ⟨1, false, false, true⟩ = (⟨1, false, false, false⟩, [.ph]) := by
  simp +decide [hstep, hc1, hc2, hob, hcb]

theorem hstep_other_skip (p : Option Char) (c : Char) (d : Int) (lo : Bool)
    (hc1 : c ≠ '"') (hc2 : c ≠ '\'') (hob : c ≠ '{') (hcb : c ≠ '}')
    (hd : d ≠ 0) (hph : ¬(d = 1 ∧ lo = true)) :
    hstep p c ⟨d, false, false, lo⟩ = (⟨d, false, false, lo⟩, []) := by
  have hph' : ¬(d = 1 ∧ lo) := fun h => hph ⟨h.1, h.2⟩
  simp [hstep, hc1, hc2, hob, hcb, hd, hph']

theorem mirror_eq_of_pos {d d' : Int} (lo : Bool) (h1 : 1 ≤ d ↔ 1 ≤ d') :
    mirror ⟨d, false, false, lo⟩ = mirror ⟨d', false, false, lo⟩ := by
  simp only [mirror, HState.mk.injEq, and_true, true_and, and_self]
  split <;> split <;> first
    | rfl
    | (exfalso; omega)

theorem hstep_sim (p q : Option Char) (c : Char) (st : HState)
    (hc1 : c ≠ '"') (hc2 : c ≠ '\'')
    (hs : st.inString = false) (hch : st.inChar = false) :
    hrun q (mirror st) (render (hstep p c st).2) =
      (mirror (hstep p c st).1, (hstep p c st).2) := by
  obtain ⟨d, sS, sC, lo⟩ := st
  simp only at hs hch
  subst hs hch
  by_cases hob : c = '{'
  · subst hob
    rcases eq_or_ne d 0 with hd | hd
    · subst hd
      rw [hstep_open_zero]
      have hm : mirror ⟨0, false, false, lo⟩ = ⟨0, false, false, lo⟩ := by
        simp [mirror]
      rw [hm]
      simp only [render, List.map_cons, List.map_nil, renderTok,
        List.flatten_cons, List.flatten_nil, List.append_nil, hrun,
        hstep_open_zero]
      decide
    · rw [hstep_open_pos p d lo hd]
      simp only [render, List.map_nil, List.flatten_nil, hrun]
      exact Prod.ext (mirror_eq_of_pos lo (by omega)) rfl
  · by_cases hcb : c = '}'
    · subst hcb
      rcases eq_or_ne d 1 with hd | hd
      · subst hd
        rw [hstep_close_one]
        have hm : mirror ⟨1, false, false, lo⟩ = ⟨1, false, false, lo⟩ := by
          simp [mirror]
        rw [hm]
        simp only [render, List.map_cons, List.map_nil, renderTok,
          List.flatten_cons, List.flatten_nil, List.append_nil, hrun,
          hstep_close_one]
        decide
      · rw [hstep_close_ne p d lo hd]
        simp only [render, List.map_nil, List.flatten_nil, hrun]
        exact Prod.ext (mirror_eq_of_pos lo (by omega)) rfl
    · rcases eq_or_ne d 0 with hd | hd
      · subst hd
        rw [hstep_other_zero p c lo hc1 hc2 hob hcb]
        have hm : mirror ⟨0, false, false, lo⟩ = ⟨0, false, false, lo⟩ := by
          simp [mirror]
        rw [hm]
        simp only [render, List.map_cons, List.map_nil, renderTok,
          List.flatten_cons, List.flatten_nil, List.append_nil, hrun,
          hstep_other_zero p c lo hc1 hc2 hob hcb,
          hstep_other_zero (some c) c lo hc1 hc2 hob hcb]
        rw [hstep_other_zero q c lo hc1 hc2 hob hcb]
        simp [mirror]
      · by_cases hph : d = 1 ∧ lo = true
        · obtain ⟨hd1, hlo⟩ := hph
          subst hd1 hlo
          rw [hstep_other_ph p c hc1 hc2 hob hcb]
          have hm : mirror ⟨1, false, false, true⟩ = ⟨1, false, false, true⟩ := by
            simp [mirror]
          rw [hm]
          simp only [render, List.map_cons, List.map_nil, renderTok,
            List.flatten_cons, List.flatten_nil, List.append_nil]
          rw [hrun_placeholder]
          simp [mirror]
        · rw [hstep_other_skip p c d lo hc1 hc2 hob hcb hd hph]
          simp [hrun, render]

/-- On a quote-free input, re-running the scanner on its own rendered output
reproduces the same token stream, with the second run's state mirroring the
first run's. -/
theorem hrun_sim (cs : List Char) (h : quoteFree cs) (p q : Option Char)
    (st : HState) (hs : st.inString = false) (hch : st.inChar = false) :
    hrun q (mirror st) (render (hrun p st cs).2) =
      (mirror (hrun p st cs).1, (hrun p st cs).2) := by
  induction cs generalizing p q st with
  | nil => simp [hrun, render]
  | cons c cs ih =>
    have hc := h c (List.mem_cons_self _ _)
    have hcs : quoteFree cs := fun x hx => h x (List.mem_cons_of_mem _ hx)
    have hclean := hstep_clean p c st hc.1 hc.2
    simp only [hrun]
    rw [render_append, hrun_append]
    have h₁ := hstep_sim p q c st hc.1 hc.2 hs hch
    rw [h₁]
    have h₂ := ih hcs (some c) (lastPrev q (render (hstep p c st).2))
      (hstep p c st).1 (hclean.1.trans hs) (hclean.2.trans hch)
    rw [h₂]

/-- `hollow_out_function_bodies` is idempotent on quote-free inputs
(main lemma, character-list level). -/
theorem hollowChars_idem (cs : List Char) (h : quoteFree cs) :
    hollowChars (hollowChars cs) = hollowChars cs := by
  unfold hollowChars
  have hsim := hrun_sim cs h none none HState.init rfl rfl
  rw [mirror_init] at hsim
  rw [hsim]

/-! ### The claim-worded reference transform for the skeletonizer

`depthOk d cs` states that scanning `cs` starting from brace depth `d` never
meets a `}` at depth 0, i.e. the depth counter never underflows. -/

def depthOk : Nat → List Char → Bool
  | _, [] => true
  | d, c :: cs =>
    if c = '}' then
      match d with
      | 0 => false
      | k + 1 => depthOk k cs
    else if c = '{' then depthOk (d + 1) cs
    else depthOk d cs

/-- Modelled from the claim's words (spec §4.2): depth-0 characters pass
through unchanged; a `{` at depth 0 and the `}` returning to depth 0 are
emitted; all body content of one body is coalesced into exactly one
placeholder emitted immediately after the opening brace; nothing else from
inside a body is emitted.  `done` records whether the placeholder for the
current body has already been emitted. -/
def hollowSpecGo : Nat → Bool → List Char → List Char
  | _, _, [] => []
  | d, done, c :: cs =>
    if c = '{' then
      if d = 0 then '{' :: hollowSpecGo 1 false cs
      else hollowSpecGo (d + 1) done cs
    else if c = '}' then
      if d = 1 then '}' :: hollowSpecGo 0 false cs
      else hollowSpecGo (d - 1) done cs
    else
      if d = 0 then c :: hollowSpecGo 0 done cs
      else if d = 1 ∧ done = false then
        placeholderChars ++ hollowSpecGo 1 true cs
      else hollowSpecGo d done cs

def hollowSpec (cs : List Char) : List Char := hollowSpecGo 0 false cs

theorem hollow_spec_aux (cs : List Char) :
    ∀ (p : Option Char) (d : ℕ) (done lo : Bool),
      lo = (decide (1 ≤ d) && !done) → quoteFree cs → depthOk d cs = true →
      render (hrun p ⟨(d : ℤ), false, false, lo⟩ cs).2 = hollowSpecGo d done cs := by
  induction cs with
  | nil => intro p d done lo hlo h hd; simp [hrun, render, hollowSpecGo]
  | cons c cs ih =>
    intro p d done lo hlo h hdall
    have hc := h c (List.mem_cons_self _ _)
    have hcs : quoteFree cs := fun x hx => h x (List.mem_cons_of_mem _ hx)
    simp only [hrun]
    rw [render_append]
    by_cases hob : c = '{'
    · subst hob
      have hd' : depthOk (d + 1) cs = true := by
        simpa [depthOk] using hdall
      rcases Nat.eq_zero_or_pos d with h0 | hpos
      · subst h0
        have hlo' : lo = false := by simpa using hlo
        subst hlo'
        rw [show ((0 : ℕ) : ℤ) = 0 from rfl, hstep_open_zero]
        have hih := ih (some '{') 1 false true (by decide) hcs hd'
        push_cast at hih
        rw [show ((⟨1, false, false, true⟩ : HState),
            ([.ch '{'] : List Tok)).1 = (⟨1, false, false, true⟩ : HState)
          from rfl, hih]
        simp [render, renderTok, hollowSpecGo]
      · have hdz : ((d : ℤ)) ≠ 0 := by omega
        rw [hstep_open_pos p _ lo hdz]
        have hih := ih (some '{') (d + 1) done lo (by
          rw [hlo]
          have h1 : decide (1 ≤ d) = true := by simpa using hpos
          have h2 : decide (1 ≤ d + 1) = true := by simp
          rw [h1, h2]) hcs hd'
        push_cast at hih
        rw [show ((⟨(d : ℤ) + 1, false, false, lo⟩ : HState),
            ([] : List Tok)).1 = (⟨(d : ℤ) + 1, false, false, lo⟩ : HState)
          from rfl, hih]
        have hdne : d ≠ 0 := by omega
        simp [render, hollowSpecGo, hdne]
    · by_cases hcb : c = '}'
      · subst hcb
        match d, hlo, hdall with
        | (k + 1 : ℕ), hlo, hdall =>
          have hd' : depthOk k cs = true := by
            simpa [depthOk] using hdall
          have hlok : lo = !done := by simpa using hlo
          rcases Nat.eq_zero_or_pos k with h0 | hpos
          · subst h0
            rw [show (((0 : ℕ) + 1 : ℕ) : ℤ) = 1 from rfl, hstep_close_one]
            have hih := ih (some '}') 0 false false (by decide) hcs hd'
            push_cast at hih
            rw [show ((⟨0, false, false, false⟩ : HState),
                ([.ch '}'] : List Tok)).1 = (⟨0, false, false, false⟩ : HState)
              from rfl, hih]
            simp [render, renderTok, hollowSpecGo]
          · have hdz : (((k + 1 : ℕ) : ℤ)) ≠ 1 := by omega
            rw [hstep_close_ne p _ lo hdz]
            have hih := ih (some '}') k done lo (by
              rw [hlok]
              have h1 : decide (1 ≤ k) = true := by simpa using hpos
              simp [h1]) hcs hd'
            push_cast at hih
            rw [show ((⟨((k + 1 : ℕ) : ℤ) - 1, false, false, lo⟩ : HState),
                ([] : List Tok)).1
                = (⟨((k + 1 : ℕ) : ℤ) - 1, false, false, lo⟩ : HState)
              from rfl]
            rw [show (((k + 1 : ℕ) : ℤ) - 1) = (k : ℤ) from by push_cast; ring,
              hih]
            have hkne : k + 1 ≠ 1 := by omega
            simp [render, hollowSpecGo, hkne]
      · have hd' : depthOk d cs = true := by
          simpa [depthOk, hob, hcb] using hdall
        rcases Nat.eq_zero_or_pos d with h0 | hpos
        · subst h0
          have hlo' : lo = false := by simpa using hlo
          subst hlo'
          rw [show ((0 : ℕ) : ℤ) = 0 from rfl,
            hstep_other_zero p c false hc.1 hc.2 hob hcb]
          have hih := ih (some c) 0 done false (by simp) hcs hd'
          push_cast at hih
          rw [show ((⟨0, false, false, false⟩ : HState),
              ([.ch c] : List Tok)).1 = (⟨0, false, false, false⟩ : HState)
            from rfl, hih]
          simp [render, renderTok, hollowSpecGo, hob, hcb]
        · have h1d : decide (1 ≤ d) = true := by simpa using hpos
          have hlok : lo = !done := by rw [hlo, h1d]; simp
          rcases Bool.eq_false_or_eq_true done with hdone | hdone
          all_goals subst hdone
          · -- done = true: lo = false, body content after the placeholder
            have hlo' : lo = false := by simpa using hlok
            subst hlo'
            have hph : ¬((d : ℤ) = 1 ∧ (false : Bool) = true) := by simp
            rw [hstep_other_skip p c _ false hc.1 hc.2 hob hcb (by omega) hph]
            have hih := ih (some c) d true false (by rw [h1d]; simp) hcs hd'
            push_cast at hih
            rw [hih]
            have hdne : d ≠ 0 := by omega
            simp [render, hollowSpecGo, hob, hcb, hdne]
          · -- done = false: lo = true, first body character
            have hlo' : lo = true := by simpa using hlok
            subst hlo'
            rcases eq_or_ne d 1 with hd1 | hd1
            · subst hd1
              rw [show ((1 : ℕ) : ℤ) = 1 from rfl,
                hstep_other_ph p c hc.1 hc.2 hob hcb]
              have hih := ih (some c) 1 true false (by decide) hcs hd'
              push_cast at hih
              rw [show ((⟨1, false, false, false⟩ : HState),
                  ([.ph] : List Tok)).1 = (⟨1, false, false, false⟩ : HState)
                from rfl, hih]
              simp [render, renderTok, hollowSpecGo, hob, hcb]
            · have hph : ¬((d : ℤ) = 1 ∧ (true : Bool) = true) := by
                simp only [and_true]
                omega
              rw [hstep_other_skip p c _ true hc.1 hc.2 hob hcb (by omega) hph]
              have hih := ih (some c) d false true (by rw [h1d]; simp) hcs hd'
              push_cast at hih
              rw [hih]
              have hdne : d ≠ 0 := by omega
              simp [render, hollowSpecGo, hob, hcb, hdne, hd1]

/-! ### Claims C3, C4, C8 -/

/-- C3: the claim states that on inputs with more closing than opening
braces the depth counter is clamped at 0 and each excess `}` is emitted as
an ordinary depth-0 character, so that the text following it is scanned
normally.  The code does neither: on the input `"}a"` the excess `}` drives
`brace_depth` to `-1`, the `}` is not emitted, and the following depth-0
character `a` is dropped as well — the output is empty instead of the
claimed `"}a"`.  This contradicts the documented intent (keep structure,
never corrupt subsequent scanning), so the claim is recorded as a code bug;
this theorem evaluates the code at the failing input. -/
theorem C3_no_clamp_failing_input_eval :
    hollow_out_function_bodies "\x7da" = "" ∧
      hollow_out_function_bodies "\x7da" ≠ "\x7da" := by
  decide

/-- C4 counterexample: the claim asserts that no character from inside a
body (depth ≥ 1), including quote characters and string-literal content
inside the body, appears in the output.  On the input `{"s"}` the
string-literal body content `"s"` is emitted verbatim (the quote branches of
the scanner run before the depth logic and always emit), and no placeholder
is inserted, so the output equals the input rather than `{ /* ... */ }`. -/
theorem C4_counterexample :
    hollow_out_function_bodies "\x7b\"s\"\x7d" = "\x7b\"s\"\x7d" ∧
      hollow_out_function_bodies "\x7b\"s\"\x7d" ≠ "\x7b /* ... */ \x7d" := by
  decide

/-- C4 (amended): for inputs that contain no quote characters and whose
brace depth never underflows, `hollow_out_function_bodies` computes exactly
the transform described by the claim (`hollowSpec`): depth-0 characters pass
through unchanged, boundary braces are emitted, and all body content at
depth ≥ 1 is coalesced into exactly one placeholder placed immediately
after the opening brace. -/
theorem C4_amended_hollow_matches_spec (s : String)
    (h1 : quoteFree s.data) (h2 : depthOk 0 s.data = true) :
    hollow_out_function_bodies s = ⟨hollowSpec s.data⟩ := by
  show String.mk (hollowChars s.data) = String.mk (hollowSpec s.data)
  congr 1
  unfold hollowChars hollowSpec
  exact hollow_spec_aux s.data none 0 false false (by decide) h1 h2

theorem C4_amended_hollow_matches_spec_witness :
    quoteFree ("int f(int a)\x7b return a; \x7d" : String).data ∧
      depthOk 0 ("int f(int a)\x7b return a; \x7d" : String).data = true ∧
      hollow_out_function_bodies "int f(int a)\x7b return a; \x7d"
        = ⟨hollowSpec ("int f(int a)\x7b return a; \x7d" : String).data⟩ :=
  ⟨by decide, by decide,
    C4_amended_hollow_matches_spec "int f(int a)\x7b return a; \x7d"
      (by decide) (by decide)⟩

/-- C8 counterexample: the skeletonizer is not idempotent.  On the input
`\}"{a}"` the first pass drops the underflowing `}` and leaves the quotes
adjacent to the backslash, so in the second pass the first quote no longer
toggles the string state and the braces that were protected by the literal
in the first pass are now hollowed out. -/
theorem C8_counterexample :
    hollow_out_function_bodies
        (hollow_out_function_bodies "\\\x7d\"\x7ba\x7d\"") ≠
      hollow_out_function_bodies "\\\x7d\"\x7ba\x7d\"" := by
  decide

/-- C8 (amended): the skeletonizer is idempotent on every input containing
no quote characters: `skeletonize (skeletonize x) = skeletonize x`. -/
theorem C8_amended_idempotent_on_quote_free (s : String)
    (h : quoteFree s.data) :
    hollow_out_function_bodies (hollow_out_function_bodies s) =
      hollow_out_function_bodies s := by
  show String.mk (hollowChars (hollowChars s.data)) =
    String.mk (hollowChars s.data)
  congr 1
  exact hollowChars_idem s.data h

theorem C8_amended_idempotent_on_quote_free_witness :
    quoteFree ("a\x7bb\x7dc\x7d\x7d" : String).data ∧
      hollow_out_function_bodies
          (hollow_out_function_bodies "a\x7bb\x7dc\x7d\x7d") =
        hollow_out_function_bodies "a\x7bb\x7dc\x7d\x7d" :=
  ⟨by decide,
    C8_amended_idempotent_on_quote_free "a\x7bb\x7dc\x7d\x7d" (by decide)⟩

/-! ## Data model of `code_collector.py`

Python dicts of fixed shape become structures.  A key that may be absent
becomes an `Option` field.  Fields that no modelled operation ever reads
(the float `size_kb` on file records) are omitted. -/

/-- A file record as built by `batch_import` (lines 123-129) or
`_parse_file_sections` (parsed records carry `lines = 0`). -/
structure FileInfo where
  path : String
  content : String
  language : String
  lines : Nat
deriving DecidableEq, Repr

/-- A snippet dict: `type`, optional `name` (named-entity snippets),
optional `range` label (line-range snippets), `content`, `lines`. -/
structure Snippet where
  stype : String
  name : Option String
  rng : Option String
  content : String
  lines : Nat
deriving DecidableEq, Repr

/-- A per-file snippet group `{"file_path": ..., "snippets": [...]}`. -/
structure SnippetGroup where
  file_path : String
  snippets : List Snippet
deriving DecidableEq, Repr

/-- A skipped-file record.  `sizeKb` is `st_size / 1024` (an exact rational
in Python); `lineEstimate` is the `lines` key, itself optional-valued
(`_count_lines` may return `None`); `none` on either means the key is
absent (encoding-error and junk-filter records carry only path and
reason). -/
structure SkippedFile where
  path : String
  reason : String
  sizeKb : Option ℚ
  lineEstimate : Option (Option Nat)
deriving DecidableEq, Repr

/-- The `stats` dict.  `languages` is a Python dict in insertion order,
modelled as an association list. -/
structure Stats where
  total_files : Nat
  total_lines : Nat
  languages : List (String × Nat)
deriving DecidableEq, Repr

/-- The `files` dict of a parsed snapshot: `{"core": [...], "other": [...]}`. -/
structure FileBuckets where
  core : List FileInfo
  other : List FileInfo
deriving DecidableEq, Repr

/-- A parsed document snapshot (`parse_existing_markdown` result, or the
result of a previous merge): all keys present.  The `structure` key is
named `tree` because `structure` is a Lean keyword. -/
structure MDSnapshot where
  header : String
  files : FileBuckets
  snippets : List SnippetGroup
  tree : String
  stats : Stats
  skipped_files : List SkippedFile
deriving DecidableEq, Repr

/-- The `new_data` argument of `merge_markdown_data`: a plain dict whose
keys may be absent (`batch_import` results have no `snippets` key;
`extract_snippets` results have no `files`, `structure` or `skipped_files`
key), so every field is an `Option`. -/
structure PartialResult where
  files : Option (List FileInfo)
  snippets : Option (List SnippetGroup)
  tree : Option String
  stats : Option Stats
  skipped_files : Option (List SkippedFile)
deriving DecidableEq, Repr

/-! ## Python string and list primitives used by the collector -/

/-- Python `str.isspace` characters relevant to `strip`/`lstrip`
(ASCII whitespace; exotic Unicode whitespace is not modelled). -/
def pyIsSpace (c : Char) : Bool :=
  c == ' ' || c == '\t' || c == '\n' || c == '\r' || c == '\x0b' || c == '\x0c'

/-- `len(line) - len(line.lstrip())`: the leading-whitespace width. -/
def indentOf (s : String) : Nat := (s.data.takeWhile pyIsSpace).length

/-- `line.strip() == ""`. -/
def isBlankLine (s : String) : Bool := s.data.all pyIsSpace

/-- Worker for `str.splitlines` (terminators `\n`, `\r`, `\r\n`). -/
def pySplitlinesGo : List Char → List Char → List String
  | [], cur => [String.mk cur.reverse]
  | '\r' :: '\n' :: rest, cur =>
    String.mk cur.reverse ::
      (if rest.isEmpty then [] else pySplitlinesGo rest [])
  | c :: rest, cur =>
    if c = '\n' ∨ c = '\r' then
      String.mk cur.reverse ::
        (if rest.isEmpty then [] else pySplitlinesGo rest [])
    else pySplitlinesGo rest (c :: cur)

/-- Python `str.splitlines()` (no `keepends`), restricted to the `\n`,
`\r`, `\r\n` terminators. -/
def pySplitlines (s : String) : List String :=
  match s.data with
  | [] => []
  | l => pySplitlinesGo l []

example : pySplitlines "a\nb" = ["a", "b"] := by decide
example : pySplitlines "a\n" = ["a"] := by decide
example : pySplitlines "" = [] := by decide
example : pySplitlines "\n\n" = ["", ""] := by decide

/-- Python list slicing `l[a:b]` with step 1: negative indices count from
the end, and both bounds clamp to the list. -/
def pySlice {α : Type} (l : List α) (a b : Int) : List α :=
  let n : Int := l.length
  let a' : Int := if a < 0 then max (n + a) 0 else min a n
  let b' : Int := if b < 0 then max (n + b) 0 else min b n
  (l.take b'.toNat).drop a'.toNat

example : pySlice ["a", "b", "c"] (-1) 3 = ["c"] := by decide
example : pySlice ["a", "b", "c"] 0 2 = ["a", "b"] := by decide
example : pySlice ["a", "b", "c"] 1 100 = ["b", "c"] := by decide

/-! ## `_find_end_by_indent` (code_collector.py lines 855-874) -/

/-- The `for i in range(start_line + 1, len(lines))` loop: `some i` is the
`break` with `end_line = i`, `none` is the `for`-`else` branch. -/
def febGo (base : Nat) : List String → Nat → Option Nat
  | [], _ => none
  | l :: rest, i =>
    if isBlankLine l then febGo base rest (i + 1)
    else if indentOf l ≤ base then some i
    else febGo base rest (i + 1)

def find_end_by_indent (lines : List String) (start_line : Nat) : Nat :=
  match febGo (indentOf (lines.getD start_line ""))
      (lines.drop (start_line + 1)) (start_line + 1) with
  | some i => i
  | none => lines.length

example : find_end_by_indent ["def f():", "    x", "y"] 0 = 2 := by decide
example : find_end_by_indent ["def f():", "    x", "", "    y"] 0 = 4 := by
  decide

/-! ## `_find_closing_brace` (code_collector.py lines 825-853) -/

/-- `line[:line.index('//')] if '//' in line else line`. -/
def takeUntilSlashes : List Char → List Char
  | [] => []
  | '/' :: '/' :: _ => []
  | c :: cs => c :: takeUntilSlashes cs

/-- The `for char in code_part` loop: `none` means the
`found_opening and brace_count == 0` check fired (return from the scan),
`some (count, found)` is the state at the end of the line. -/
def scanLineChars : List Char → Int → Bool → Option (Int × Bool)
  | [], count, found => some (count, found)
  | c :: cs, count, found =>
    let count' := if c = '{' then count + 1 else
      if c = '}' then count - 1 else count
    let found' := found || (c == '{')
    if found' = true ∧ count' = 0 then none
    else scanLineChars cs count' found'

/-- The `for i in range(start_line, len(lines))` loop. -/
def fcbGo : List String → Nat → Int → Bool → Option Nat
  | [], _, _, _ => none
  | l :: rest, i, count, found =>
    match scanLineChars (takeUntilSlashes l.data) count found with
    | none => some (i + 1)
    | some (c, f) => fcbGo rest (i + 1) c f

def find_closing_brace (lines : List String) (start_line : Nat) : Nat :=
  match fcbGo (lines.drop start_line) start_line 0 false with
  | some r => r
  | none => lines.length

example :
    find_closing_brace ["int f() \x7b", "  return 1;", "\x7d", "int g;"] 0
      = 3 := by decide

/-! ## `_extract_by_name` (code_collector.py lines 728-823)

The per-extension regex table (lines 741-791) is a pure lookup structure;
the specification treats the language dispatch as a closed table.  We embed
it as a parameter `matcher : element_type → name → Option (line predicate)`
(`none` models the `return None, 0` branches for unsupported
`(extension, element_type)` pairs), and implement the `.py` row of the
table concretely below. -/

structure ExtractEnv where
  matcher : String → String → Option (String → Bool)
  isBraceLang : Bool
  skeletonMode : Bool
  skel : String → String

/-- `startsWith` on character lists, returning the rest on success. -/
def charsStartWith : List Char → List Char → Option (List Char)
  | [], cs => some cs
  | _ :: _, [] => none
  | p :: ps, c :: cs => if c = p then charsStartWith ps cs else none

/-- `re.search(rf'^\s*def\s+{re.escape(name)}\s*\(', line)` as a
line predicate (code_collector.py line 743).  The greedy-with-backtracking
`\s+` is modelled as "one whitespace then drop all further whitespace",
which agrees with the regex whenever `name` does not itself begin with
whitespace (it is an escaped literal identifier). -/
def pyFunMatch (name : String) (line : String) : Bool :=
  match charsStartWith "def".data (line.data.dropWhile pyIsSpace) with
  | none => false
  | some cs =>
    match cs with
    | [] => false
    | c :: rest =>
      if pyIsSpace c then
        match charsStartWith name.data (rest.dropWhile pyIsSpace) with
        | none => false
        | some cs₂ => (cs₂.dropWhile pyIsSpace).head? == some '('
      else false

/-- `re.search(rf'^\s*class\s+{re.escape(name)}\s*[\(:]', line)` as a
line predicate (code_collector.py line 745). -/
def pyClassMatch (name : String) (line : String) : Bool :=
  match charsStartWith "class".data (line.data.dropWhile pyIsSpace) with
  | none => false
  | some cs =>
    match cs with
    | [] => false
    | c :: rest =>
      if pyIsSpace c then
        match charsStartWith name.data (rest.dropWhile pyIsSpace) with
        | none => false
        | some cs₂ =>
          match (cs₂.dropWhile pyIsSpace).head? with
          | some '(' => true
          | some ':' => true
          | _ => false
      else false

/-- The `.py` row of the pattern table (lines 741-747): only `function` and
`class` are supported; anything else returns `None, 0`. -/
def pyMatcher (element_type name : String) : Option (String → Bool) :=
  if element_type = "function" then some (pyFunMatch name)
  else if element_type = "class" then some (pyClassMatch name)
  else none

/-- The extraction environment for a `.py` file with `clean_mode = 'none'`:
`.py` is not in `brace_languages` (line 804), so the indentation strategy is
used. -/
def pyEnv : ExtractEnv := ⟨pyMatcher, false, false, id⟩

example : pyFunMatch "f" "def f():" = true := by decide
example : pyFunMatch "f" "  def  f (x):" = true := by decide
example : pyFunMatch "f" "def fn(x):" = false := by decide
example : pyFunMatch "f" "x = f(1)" = false := by decide

/-- Steps 1 and 2 of `_extract_by_name`: the declaration-line search
(lines 793-801) and the end-line strategy dispatch (lines 803-813),
returning the half-open line span `[start_line, end_line)`. -/
def extract_span (env : ExtractEnv) (lines : List String)
    (element_type name : String) : Option (Nat × Nat) :=
  match env.matcher element_type name with
  | none => none
  | some m =>
    match lines.findIdx? m with
    | none => none
    | some s =>
      some (s, if env.isBraceLang then find_closing_brace lines s
        else find_end_by_indent lines s)

/-- `_extract_by_name` (lines 728-823): `none` models `return None, 0`. -/
def extract_by_name (env : ExtractEnv) (content : String)
    (element_type name : String) : Option (String × Nat) :=
  let lines := pySplitlines content
  match extract_span env lines element_type name with
  | none => none
  | some (s, e) =>
    let snippet_lines := (lines.take e).drop s
    let snippet_content := String.intercalate "\n" snippet_lines
    if env.skeletonMode then
      let cleaned := env.skel snippet_content
      some (cleaned, (pySplitlines cleaned).length)
    else
      some (snippet_content, snippet_lines.length)

/-! ## `extract_snippets` (code_collector.py lines 144-235) -/

/-- One entry of the `ranges` argument: `{"type": "lines", "start", "end"}`
(either key may be absent, hence `Option`) or
`{"type": element_type, "name": name}`. -/
inductive RangeSpec where
  | lineRange (start? end? : Option Int)
  | named (element_type name : String)
deriving DecidableEq, Repr

/-- The `lines`-type branch of the loop (lines 185-196): note
`start = range_spec.get("start", 1) - 1` followed by Python slicing. -/
def linesSnippet (lines : List String) (start? end? : Option Int) : Snippet :=
  let start : Int := start?.getD 1 - 1
  let e : Int := end?.getD (lines.length : Int)
  let snippet_lines := pySlice lines start e
  { stype := "lines", name := none,
    rng := some (toString (start + 1) ++ "-" ++ toString e),
    content := String.intercalate "\n" snippet_lines,
    lines := snippet_lines.length }

/-- One iteration of the `for range_spec in ranges` loop (lines 182-219),
acting on the accumulator `(result["snippets"], result["total_lines"])`.
A `lines` spec always appends a snippet; a named spec appends one only when
`_extract_by_name` succeeded with truthy (nonempty) content. -/
def processSpec (env : ExtractEnv) (content : String)
    (st : List Snippet × Nat) : RangeSpec → List Snippet × Nat
  | .lineRange s? e? =>
    let sn := linesSnippet (pySplitlines content) s? e?
    (st.1 ++ [sn], st.2 + sn.lines)
  | .named element_type name =>
    match extract_by_name env content element_type name with
    | none => st
    | some (c, k) =>
      if c = "" then st
      else (st.1 ++ [⟨element_type, some name, none, c, k⟩], st.2 + k)

/-- The snippet-collection loop of `extract_snippets`: the final
`(result["snippets"], result["total_lines"])` before wrapping. -/
def extract_snippets_core (env : ExtractEnv) (content : String)
    (ranges : List RangeSpec) : List Snippet × Nat :=
  ranges.foldl (processSpec env content) ([], 0)

/-- The full `extract_snippets` result on a readable file, as a
`PartialResult` for the merge engine (lines 221-235): one snippet group
wrapping all snippets, stats `{total_files: 1, total_lines, {lang: 1}}`,
and no `files`/`structure`/`skipped_files` keys.  `lang` abstracts
`_detect_language(abs_path)`. -/
def extract_snippets_result (env : ExtractEnv) (file_path lang : String)
    (content : String) (ranges : List RangeSpec) : PartialResult :=
  let r := extract_snippets_core env content ranges
  { files := none,
    snippets := some [⟨file_path, r.1⟩],
    tree := none,
    stats := some ⟨1, r.2, [(lang, 1)]⟩,
    skipped_files := none }

/-! ### Claim C5: the `lines`-type extraction -/

/-- Modelled from the claim's words: the file's lines from `max(start, 1)`
through `min(end, total line count)`, 1-based inclusive. -/
def claimedLinesRange (lines : List String) (s e : Int) : List String :=
  (lines.take (min e (lines.length : Int)).toNat).drop ((max s 1).toNat - 1)

/-- C5 counterexample: for `{type: "lines", start: 0, end: 3}` on a 3-line
file, `start - 1 = -1` triggers Python negative indexing and the snippet is
only the *last* line, not the claimed clamped range (all three lines). -/
theorem C5_counterexample :
    (linesSnippet ["a", "b", "c"] (some 0) (some 3)).content = "c" ∧
      String.intercalate "\n" (claimedLinesRange ["a", "b", "c"] 0 3)
        = "a\nb\nc" ∧
      (linesSnippet ["a", "b", "c"] (some 0) (some 3)).content ≠
        String.intercalate "\n" (claimedLinesRange ["a", "b", "c"] 0 3) := by
  decide

theorem pySlice_eq_claimedRange (lines : List String) (s e : Int)
    (h1 : 1 ≤ s) (h2 : 0 ≤ e) :
    pySlice lines (s - 1) e = claimedLinesRange lines s e := by
  unfold pySlice claimedLinesRange
  simp only
  rw [if_neg (by omega), if_neg (by omega)]
  rw [max_eq_left h1]
  rcases le_or_lt (s - 1) ((lines.length : Int)) with hle | hlt
  · rw [min_eq_left hle]
    congr 1
    omega
  · rw [min_eq_right (le_of_lt hlt)]
    have hlen := List.length_take ((min e (lines.length : Int)).toNat) lines
    rw [List.drop_eq_nil_of_le (by omega), List.drop_eq_nil_of_le (by omega)]

/-- C5 (amended): for a `lines` spec with `start ≥ 1` and `end ≥ 0`, the
snippet produced by the `lines` branch of `extract_snippets` has exactly
the claimed content and line count: the file's lines from `max(start, 1)`
through `min(end, total)`, 1-based inclusive.  (For `start ≤ 0` the claim
fails: Python negative indexing applies, see the counterexample.) -/
theorem C5_amended_lines_clamped (lines : List String) (s e : Int)
    (h1 : 1 ≤ s) (h2 : 0 ≤ e) :
    (linesSnippet lines (some s) (some e)).content =
        String.intercalate "\n" (claimedLinesRange lines s e) ∧
      (linesSnippet lines (some s) (some e)).lines =
        (claimedLinesRange lines s e).length := by
  have h := pySlice_eq_claimedRange lines s e h1 h2
  constructor <;> simp [linesSnippet, h]

theorem C5_amended_lines_clamped_witness :
    (1 : Int) ≤ 2 ∧ (0 : Int) ≤ 9 ∧
      ((linesSnippet ["a", "b", "c"] (some 2) (some 9)).content =
          String.intercalate "\n" (claimedLinesRange ["a", "b", "c"] 2 9) ∧
        (linesSnippet ["a", "b", "c"] (some 2) (some 9)).lines =
          (claimedLinesRange ["a", "b", "c"] 2 9).length) :=
  ⟨by decide, by decide,
    C5_amended_lines_clamped ["a", "b", "c"] 2 9 (by decide) (by decide)⟩

/-! ### Claim C6: the indentation end-finder -/

theorem febGo_some_spec (base : Nat) :
    ∀ (ls : List String) (i j : Nat), febGo base ls i = some j →
      i ≤ j ∧ j - i < ls.length ∧
      (isBlankLine (ls.getD (j - i) "") = false ∧
        indentOf (ls.getD (j - i) "") ≤ base) ∧
      ∀ k, k < j - i →
        (isBlankLine (ls.getD k "") = true ∨ base < indentOf (ls.getD k "")) := by
  intro ls
  induction ls with
  | nil => intro i j h; simp [febGo] at h
  | cons l rest ih =>
    intro i j h
    simp only [febGo] at h
    by_cases hb : isBlankLine l
    · rw [if_pos hb] at h
      obtain ⟨h1, h2, h3, h4⟩ := ih (i + 1) j h
      have hij : i < j := by omega
      refine ⟨by omega, by simp; omega, ?_, ?_⟩
      · have : j - i = (j - (i + 1)) + 1 := by omega
        rw [this]
        simpa using h3
      · intro k hk
        match k with
        | 0 => exact Or.inl (by simpa using hb)
        | k + 1 =>
          have := h4 k (by omega)
          simpa using this
    · rw [if_neg hb] at h
      by_cases hind : indentOf l ≤ base
      · rw [if_pos hind] at h
        have hj : j = i := by simpa using h.symm
        subst hj
        refine ⟨le_refl _, by simp, ?_, ?_⟩
        · simp [Nat.sub_self]
          exact ⟨by simpa using hb, hind⟩
        · intro k hk; omega
      · rw [if_neg hind] at h
        obtain ⟨h1, h2, h3, h4⟩ := ih (i + 1) j h
        have hij : i < j := by omega
        refine ⟨by omega, by simp; omega, ?_, ?_⟩
        · have : j - i = (j - (i + 1)) + 1 := by omega
          rw [this]
          simpa using h3
        · intro k hk
          match k with
          | 0 => exact Or.inr (by simpa using hind)
          | k + 1 =>
            have := h4 k (by omega)
            simpa using this

theorem febGo_none_spec (base : Nat) :
    ∀ (ls : List String) (i : Nat), febGo base ls i = none →
      ∀ k, k < ls.length →
        (isBlankLine (ls.getD k "") = true ∨ base < indentOf (ls.getD k "")) := by
  intro ls
  induction ls with
  | nil => intro i h k hk; simp at hk
  | cons l rest ih =>
    intro i h k hk
    simp only [febGo] at h
    by_cases hb : isBlankLine l
    · rw [if_pos hb] at h
      match k with
      | 0 => exact Or.inl (by simpa using hb)
      | k + 1 =>
        have := ih (i + 1) h k (by simpa using hk)
        simpa using this
    · rw [if_neg hb] at h
      by_cases hind : indentOf l ≤ base
      · rw [if_pos hind] at h; exact absurd h (by simp)
      · rw [if_neg hind] at h
        match k with
        | 0 => exact Or.inr (by simpa using hind)
        | k + 1 =>
          have := ih (i + 1) h k (by simpa using hk)
          simpa using this

theorem getD_drop (lines : List String) (m k : Nat) :
    (lines.drop m).getD k "" = lines.getD (m + k) "" := by
  simp [List.getD_eq_getElem?_getD, List.getElem?_drop]

theorem find_end_eq_of_some (lines : List String) (s j : Nat)
    (h : febGo (indentOf (lines.getD s "")) (lines.drop (s + 1)) (s + 1)
      = some j) : find_end_by_indent lines s = j := by
  unfold find_end_by_indent
  rw [h]

theorem find_end_eq_of_none (lines : List String) (s : Nat)
    (h : febGo (indentOf (lines.getD s "")) (lines.drop (s + 1)) (s + 1)
      = none) : find_end_by_indent lines s = lines.length := by
  unfold find_end_by_indent
  rw [h]

/-- C6 (amended): for every successful named-entity extraction with the
indentation end strategy, the span `[s, e)` satisfies: the declaration line
is included (`s < e ≤ length`); every line of the span strictly after the
declaration line is blank or has indent strictly greater than the
declaration's; and when the span does not run to end-of-file, the first
line after the span is non-blank with indent at most the declaration's.
(The claim as stated — that the *last line of the span* has indent ≤ the
declaration's — is false: the last span line is body content, see the
counterexample.) -/
theorem C6_amended_indent_span (env : ExtractEnv) (lines : List String)
    (element_type name : String) (s e : Nat)
    (hb : env.isBraceLang = false)
    (h : extract_span env lines element_type name = some (s, e)) :
    s < lines.length ∧ s < e ∧ e ≤ lines.length ∧
      (∀ j, s < j → j < e →
        (isBlankLine (lines.getD j "") = true ∨
          indentOf (lines.getD s "") < indentOf (lines.getD j ""))) ∧
      (e < lines.length →
        isBlankLine (lines.getD e "") = false ∧
          indentOf (lines.getD e "") ≤ indentOf (lines.getD s "")) := by
  unfold extract_span at h
  split at h
  · simp at h
  · rename_i m hm
    split at h
    · simp at h
    · rename_i s' hf
      rw [hb] at h
      simp only [Bool.false_eq_true, if_false, Option.some.injEq,
        Prod.mk.injEq] at h
      obtain ⟨hs, he⟩ := h
      subst hs
      have hslen : s' < lines.length :=
        (List.findIdx?_eq_some_iff_findIdx_eq.mp hf).1
      subst he
      rcases hgo : febGo (indentOf (lines.getD s' "")) (lines.drop (s' + 1))
          (s' + 1) with _ | j
      · rw [find_end_eq_of_none lines s' hgo]
        refine ⟨hslen, by omega, le_refl _, ?_, ?_⟩
        · intro k hsk hke
          have hmem := febGo_none_spec _ _ _ hgo (k - (s' + 1))
            (by simp; omega)
          rw [getD_drop] at hmem
          have hk' : s' + 1 + (k - (s' + 1)) = k := by omega
          rw [hk'] at hmem
          exact hmem
        · intro hcon; omega
      · rw [find_end_eq_of_some lines s' j hgo]
        obtain ⟨h1, h2, h3, h4⟩ := febGo_some_spec _ _ _ _ hgo
        simp only [List.length_drop] at h2
        refine ⟨hslen, by omega, by omega, ?_, ?_⟩
        · intro k hsk hke
          have hmem := h4 (k - (s' + 1)) (by omega)
          rw [getD_drop] at hmem
          have hk' : s' + 1 + (k - (s' + 1)) = k := by omega
          rw [hk'] at hmem
          exact hmem
        · intro hj
          rw [getD_drop] at h3
          have hk' : s' + 1 + (j - (s' + 1)) = j := by omega
          rw [hk'] at h3
          exact h3

theorem C6_amended_indent_span_witness :
    pyEnv.isBraceLang = false ∧
      extract_span pyEnv ["def f():", "    x", "y"] "function" "f"
        = some (0, 2) ∧
      (0 < (["def f():", "    x", "y"] : List String).length ∧ 0 < 2 ∧
        2 ≤ (["def f():", "    x", "y"] : List String).length ∧
        (∀ j, 0 < j → j < 2 →
          (isBlankLine ((["def f():", "    x", "y"] : List String).getD j "")
              = true ∨
            indentOf ((["def f():", "    x", "y"] : List String).getD 0 "") <
              indentOf ((["def f():", "    x", "y"] : List String).getD j ""))) ∧
        (2 < (["def f():", "    x", "y"] : List String).length →
          isBlankLine ((["def f():", "    x", "y"] : List String).getD 2 "")
              = false ∧
            indentOf ((["def f():", "    x", "y"] : List String).getD 2 "") ≤
              indentOf ((["def f():", "    x", "y"] : List String).getD 0 ""))) :=
  ⟨rfl, by decide,
    C6_amended_indent_span pyEnv ["def f():", "    x", "y"] "function" "f"
      0 2 rfl (by decide)⟩

/-- C6 counterexample: extracting function `f` from
`def f():\n    x\ny` returns the span lines 0-1; the span's **last** line is
the body line `    x` with indent 4, strictly greater than the declaration
line's indent 0 — contradicting the claim that the span's last line has
indent ≤ the declaration line's indent. -/
theorem C6_counterexample :
    extract_span pyEnv ["def f():", "    x", "y"] "function" "f"
        = some (0, 2) ∧
      (((["def f():", "    x", "y"] : List String).take 2).drop 0).getLastD ""
        = "    x" ∧
      ¬ indentOf "    x" ≤ indentOf "def f():" := by
  decide

/-! ### Claim C9: a named spec that matches nothing is dropped -/

/-- C9: if the name of a named-entity spec matches no line of the target
file (under the selected per-language pattern, or the pattern table has no
entry for this element type), `extract_snippets` emits nothing for that
spec: removing the spec from the range list leaves the produced snippet
list and total line count unchanged. -/
theorem C9_named_miss_dropped (env : ExtractEnv) (content : String)
    (element_type name : String) (rs₁ rs₂ : List RangeSpec)
    (h : ∀ m, env.matcher element_type name = some m →
      ∀ l ∈ pySplitlines content, m l = false) :
    extract_snippets_core env content
        (rs₁ ++ RangeSpec.named element_type name :: rs₂) =
      extract_snippets_core env content (rs₁ ++ rs₂) := by
  have hnone : extract_by_name env content element_type name = none := by
    rcases hm : env.matcher element_type name with _ | m
    · simp only [extract_by_name, extract_span, hm]
    · have hfi : (pySplitlines content).findIdx? m = none :=
        List.findIdx?_eq_none_iff.mpr (h m hm)
      simp only [extract_by_name, extract_span, hm, hfi]
  unfold extract_snippets_core
  rw [List.foldl_append, List.foldl_append, List.foldl_cons]
  congr 1
  simp [processSpec, hnone]

theorem C9_named_miss_dropped_witness :
    (∀ m, pyEnv.matcher "function" "g" = some m →
      ∀ l ∈ pySplitlines "x = 1\ndef f():\n    pass", m l = false) ∧
      extract_snippets_core pyEnv "x = 1\ndef f():\n    pass"
          ([] ++ RangeSpec.named "function" "g" :: []) =
        extract_snippets_core pyEnv "x = 1\ndef f():\n    pass" ([] ++ []) :=
  ⟨fun m hm => by
    have hm' : some (pyFunMatch "g") = some m := hm
    cases Option.some.inj hm'
    decide,
   C9_named_miss_dropped pyEnv "x = 1\ndef f():\n    pass" "function" "g"
      [] [] (fun m hm => by
        have hm' : some (pyFunMatch "g") = some m := hm
        cases Option.some.inj hm'
        decide)⟩

/-! ## `merge_markdown_data` (code_collector.py lines 383-476)

The `_is_core_file` predicate depends only on `self.config['core_files']`;
the specification (§6) treats the priority predicate as an externally
supplied collaborator, so it is a parameter `is_core` here. -/

/-- `snippet.get("name") or snippet.get("range")`: Python `or` falls through
on `None` *and* on the empty string. -/
def snippetId (s : Snippet) : Option String :=
  match s.name with
  | some n => if n = "" then s.rng else some n
  | none => s.rng

/-- Last index of `p` in a path list: the Python dict comprehension
`{s["file_path"]: i for i, s in enumerate(...)}` keeps the *last* index
for a repeated path. -/
def lastIdxOfPaths (p : String) : List String → Option Nat
  | [] => none
  | q :: qs =>
    match lastIdxOfPaths p qs with
    | some j => some (j + 1)
    | none => if q = p then some 0 else none

/-- `existing_snippet_files[p]` (line 420). -/
def lastIdxOf (gs : List SnippetGroup) (p : String) : Option Nat :=
  lastIdxOfPaths p (gs.map (·.file_path))

/-- In-place update `l[i] = f l[i]` of a Python list. -/
def listModify {α : Type} : List α → Nat → (α → α) → List α
  | [], _, _ => []
  | a :: as, 0, f => f a :: as
  | a :: as, i + 1, f => a :: listModify as i f

/-- Lines 427-435: collect the identity keys of the group's current
snippets into a set, then append each new snippet whose key is absent
(the set is not updated inside the loop). -/
def dedupAppendSnippets (g : SnippetGroup) (news : List Snippet) :
    SnippetGroup :=
  { g with snippets := g.snippets ++
      news.filter (fun s => !((g.snippets.map snippetId).contains (snippetId s))) }

/-- One iteration of the `for snippet_data in new_data["snippets"]` loop
(lines 422-438).  `existing` is the list the index map was built from. -/
def mergeSnippetsStep (existing : List SnippetGroup)
    (acc : List SnippetGroup) (g : SnippetGroup) : List SnippetGroup :=
  match lastIdxOf existing g.file_path with
  | some i => listModify acc i (fun old => dedupAppendSnippets old g.snippets)
  | none => acc ++ [g]

/-- Lines 418-438: the snippet-group merge.  The index map is built once
from the existing groups; groups with a known path are updated in place,
others are appended. -/
def mergeSnippets (existing news : List SnippetGroup) : List SnippetGroup :=
  news.foldl (mergeSnippetsStep existing) existing

/-- One iteration of the `for file_info in new_data["files"]` loop
(lines 410-415).  `existing_paths` is the path set built at line 408. -/
def mergeFilesStep (is_core : String → Bool) (existing_paths : List String)
    (acc : FileBuckets) (f : FileInfo) : FileBuckets :=
  if f.path ∈ existing_paths then acc
  else if is_core f.path then { acc with core := acc.core ++ [f] }
  else { acc with other := acc.other ++ [f] }

/-- Lines 406-415: the file-list merge.  The path set is built once from
the existing buckets. -/
def mergeFiles (is_core : String → Bool) (fb : FileBuckets)
    (newFiles : List FileInfo) : FileBuckets :=
  newFiles.foldl
    (mergeFilesStep is_core ((fb.core ++ fb.other).map (·.path))) fb

/-- Lines 447-453: drop inherited skipped entries whose path occurs among
the new extraction's snippet-group paths. -/
def removeExtracted (l : List SkippedFile) (gs : List SnippetGroup) :
    List SkippedFile :=
  l.filter (fun sk => !((gs.map (·.file_path)).contains sk.path))

/-- Lines 455-460: append the new skipped entries whose path is not
already recorded (the path set is built once, before the loop). -/
def appendSkipped (l ns : List SkippedFile) : List SkippedFile :=
  l ++ ns.filter (fun sk => !((l.map (·.path)).contains sk.path))

/-- `_merge_tree_structures` (lines 478-501): the path-set computation in
the body has no effect on the returned value — the function keeps the old
tree whenever both are nonempty. -/
def merge_tree_structures (existing new : String) : String :=
  if existing = "" then new
  else if new = "" then existing
  else existing

/-- `merged["stats"]["languages"][lang] = .get(lang, 0) + count`
(lines 472-474): a Python dict update keeps the position of an existing
key and appends a new key. -/
def dictAdd (d : List (String × Nat)) (k : String) (v : Nat) :
    List (String × Nat) :=
  if d.any (fun kv => kv.1 == k) then
    d.map (fun kv => if kv.1 = k then (kv.1, kv.2 + v) else kv)
  else d ++ [(k, v)]

def mergeLanguages (old new : List (String × Nat)) : List (String × Nat) :=
  new.foldl (fun d kv => dictAdd d kv.1 kv.2) old

/-- `merge_markdown_data` (lines 383-476) for a non-`None` `existing`
snapshot.  Each `match` mirrors an `if "key" in new_data` guard. -/
def merge_markdown_data (is_core : String → Bool) (existing : MDSnapshot)
    (new_data : PartialResult) : MDSnapshot :=
  let files := match new_data.files with
    | some fs => mergeFiles is_core existing.files fs
    | none => existing.files
  let snips := match new_data.snippets with
    | some gs => mergeSnippets existing.snippets gs
    | none => existing.snippets
  let tree := match new_data.tree with
    | some t =>
      if t ≠ "" then merge_tree_structures existing.tree t
      else existing.tree
    | none => existing.tree
  let skipped₁ := match new_data.snippets with
    | some gs => removeExtracted existing.skipped_files gs
    | none => existing.skipped_files
  let skipped := match new_data.skipped_files with
    | some ns => appendSkipped skipped₁ ns
    | none => skipped₁
  let stats := match new_data.stats with
    | some ns =>
      { total_files := files.core.length + files.other.length + snips.length
        total_lines := existing.stats.total_lines + ns.total_lines
        languages := mergeLanguages existing.stats.languages ns.languages }
    | none => existing.stats
  ⟨existing.header, files, snips, tree, stats, skipped⟩

/-! ### Claim C7: skipped entries are never silently lost -/

/-- The paths of the new extraction's snippet groups (`extracted_files`,
line 449); empty when `new_data` has no `snippets` key, in which case no
inherited entry is removed. -/
def extractedPaths (R : PartialResult) : List String :=
  match R.snippets with
  | some gs => gs.map (·.file_path)
  | none => []

/-- `new_data.get("skipped_files", [])`. -/
def newSkipped (R : PartialResult) : List SkippedFile :=
  R.skipped_files.getD []

/-- Lines 447-453: the inherited skipped list after removing the paths of
the new extraction's snippet groups. -/
def mergeSkippedStage1 (S : MDSnapshot) (R : PartialResult) :
    List SkippedFile :=
  match R.snippets with
  | some gs => removeExtracted S.skipped_files gs
  | none => S.skipped_files

/-- Lines 447-460: the full merged skipped list. -/
def mergeSkipped (S : MDSnapshot) (R : PartialResult) : List SkippedFile :=
  match R.skipped_files with
  | some ns => appendSkipped (mergeSkippedStage1 S R) ns
  | none => mergeSkippedStage1 S R

theorem merge_skipped_eq (is_core : String → Bool) (S : MDSnapshot)
    (R : PartialResult) :
    (merge_markdown_data is_core S R).skipped_files = mergeSkipped S R := rfl

/-- C7: `merge_markdown_data` carries every skipped entry of the old
snapshot through unless the new pass produced a snippet group for that same
path (which for `extract_snippets` results means the file was successfully
read and processed); with no new skipped entries supplied, the merged list
is exactly the inherited entries whose paths were not extracted; a new
skipped entry with an unrecorded path is appended; and every merged entry
comes from the old snapshot or the new result — none appears from nowhere
and none is lost under any other condition. -/
theorem C7_skipped_never_lost (is_core : String → Bool) (S : MDSnapshot)
    (R : PartialResult) :
    (∀ e ∈ S.skipped_files, e.path ∉ extractedPaths R →
        e ∈ (merge_markdown_data is_core S R).skipped_files) ∧
      (∀ e ∈ (merge_markdown_data is_core S R).skipped_files,
        e ∈ S.skipped_files ∨ e ∈ newSkipped R) ∧
      (∀ e ∈ newSkipped R, e.path ∉ S.skipped_files.map (·.path) →
        e ∈ (merge_markdown_data is_core S R).skipped_files) ∧
      (R.skipped_files = none →
        ∀ e ∈ (merge_markdown_data is_core S R).skipped_files,
          e ∈ S.skipped_files ∧ e.path ∉ extractedPaths R) := by
  rw [merge_skipped_eq]
  have hstage1 : ∀ e, e ∈ mergeSkippedStage1 S R ↔
      e ∈ S.skipped_files ∧ e.path ∉ extractedPaths R := by
    intro e
    unfold mergeSkippedStage1 extractedPaths
    rcases R.snippets with _ | gs
    · simp
    · simp [removeExtracted, List.mem_filter, List.elem_iff]
  unfold mergeSkipped
  rcases hsk : R.skipped_files with _ | ns
  · refine ⟨?_, ?_, ?_, ?_⟩
    · intro e he hne
      exact (hstage1 e).mpr ⟨he, hne⟩
    · intro e he
      exact Or.inl ((hstage1 e).mp he).1
    · intro e he
      simp [newSkipped, hsk] at he
    · intro _ e he
      exact (hstage1 e).mp he
  · refine ⟨?_, ?_, ?_, ?_⟩
    · intro e he hne
      exact List.mem_append_left _ ((hstage1 e).mpr ⟨he, hne⟩)
    · intro e he
      rcases List.mem_append.mp he with h | h
      · exact Or.inl ((hstage1 e).mp h).1
      · exact Or.inr (by
          simpa [newSkipped, hsk] using (List.mem_filter.mp h).1)
    · intro e he hne
      simp only [newSkipped, hsk, Option.getD_some] at he
      by_cases hmem : e ∈ mergeSkippedStage1 S R
      · exact List.mem_append_left _ hmem
      · refine List.mem_append_right _ ?_
        rw [List.mem_filter]
        refine ⟨he, ?_⟩
        simp only [Bool.not_eq_eq_eq_not, Bool.not_true, ← Bool.not_eq_true,
          List.elem_iff]
        intro hin
        rcases List.mem_map.mp hin with ⟨x, hx, hpx⟩
        exact hne (List.mem_map.mpr ⟨x, ((hstage1 x).mp hx).1, hpx⟩)
    · intro hcon
      exact absurd hcon (by simp)

/-! ### Supporting lemmas for the merge idempotence and statistics claims -/

/-- The path set of both buckets (`existing_paths`, line 408). -/
def pathsFB (fb : FileBuckets) : List String :=
  (fb.core ++ fb.other).map (·.path)

theorem mergeFilesStep_mono (is_core : String → Bool) (ps : List String)
    (acc : FileBuckets) (f : FileInfo) (p : String) (hp : p ∈ pathsFB acc) :
    p ∈ pathsFB (mergeFilesStep is_core ps acc f) := by
  unfold mergeFilesStep
  split
  · exact hp
  · split
    · simp only [pathsFB, List.map_append, List.mem_append] at hp ⊢
      tauto
    · simp only [pathsFB, List.map_append, List.mem_append] at hp ⊢
      tauto

theorem mergeFiles_go_mono (is_core : String → Bool) (ps : List String) :
    ∀ (fs : List FileInfo) (acc : FileBuckets) (p : String),
      p ∈ pathsFB acc →
      p ∈ pathsFB (fs.foldl (mergeFilesStep is_core ps) acc) := by
  intro fs
  induction fs with
  | nil => intro acc p hp; exact hp
  | cons f fs ih =>
    intro acc p hp
    exact ih _ p (mergeFilesStep_mono is_core ps acc f p hp)

theorem mergeFiles_go_cover (is_core : String → Bool) (ps : List String) :
    ∀ (fs : List FileInfo) (acc : FileBuckets) (f : FileInfo), f ∈ fs →
      f.path ∈ ps ∨
        f.path ∈ pathsFB (fs.foldl (mergeFilesStep is_core ps) acc) := by
  intro fs
  induction fs with
  | nil => intro acc f hf; simp at hf
  | cons g gs ih =>
    intro acc f hf
    rcases List.mem_cons.mp hf with rfl | htail
    · by_cases hmem : f.path ∈ ps
      · exact Or.inl hmem
      · right
        rw [List.foldl_cons]
        apply mergeFiles_go_mono
        unfold mergeFilesStep
        rw [if_neg hmem]
        split <;> simp [pathsFB]
    · rw [List.foldl_cons]
      exact ih (mergeFilesStep is_core ps acc g) f htail

theorem mergeFiles_go_id (is_core : String → Bool) (ps : List String) :
    ∀ (fs : List FileInfo) (acc : FileBuckets),
      (∀ f ∈ fs, f.path ∈ ps) →
      fs.foldl (mergeFilesStep is_core ps) acc = acc := by
  intro fs
  induction fs with
  | nil => intro acc _; rfl
  | cons f fs ih =>
    intro acc h
    rw [List.foldl_cons]
    have hstep : mergeFilesStep is_core ps acc f = acc := by
      unfold mergeFilesStep
      rw [if_pos (h f (List.mem_cons_self _ _))]
    rw [hstep]
    exact ih acc (fun x hx => h x (List.mem_cons_of_mem _ hx))

theorem mergeFiles_idem (is_core : String → Bool) (fb : FileBuckets)
    (fs : List FileInfo) :
    mergeFiles is_core (mergeFiles is_core fb fs) fs =
      mergeFiles is_core fb fs := by
  apply mergeFiles_go_id
  intro f hf
  rcases mergeFiles_go_cover is_core ((fb.core ++ fb.other).map (·.path))
      fs fb f hf with h | h
  · exact mergeFiles_go_mono _ _ fs fb f.path h
  · exact h

theorem removeExtracted_idem (l : List SkippedFile)
    (gs : List SnippetGroup) :
    removeExtracted (removeExtracted l gs) gs = removeExtracted l gs := by
  unfold removeExtracted
  rw [List.filter_filter]
  simp

theorem appendSkipped_idem (l ns : List SkippedFile) :
    appendSkipped (appendSkipped l ns) ns = appendSkipped l ns := by
  conv_lhs => rw [appendSkipped]
  have hall : ∀ sk ∈ ns,
      (((appendSkipped l ns).map (·.path)).contains sk.path) = true := by
    intro sk hsk
    rw [List.elem_iff]
    unfold appendSkipped
    rw [List.map_append, List.mem_append]
    by_cases hc : sk.path ∈ l.map (·.path)
    · exact Or.inl hc
    · right
      refine List.mem_map.mpr ⟨sk, ?_, rfl⟩
      exact List.mem_filter.mpr ⟨hsk, by simp [List.elem_iff, hc]⟩
  have hnil : ns.filter
      (fun sk => !(((appendSkipped l ns).map (·.path)).contains sk.path))
        = [] := by
    rw [List.filter_eq_nil_iff]
    intro sk hsk
    rw [hall sk hsk]
    decide
  rw [hnil, List.append_nil]

theorem merge_tree_idem (t₁ t₂ : String) :
    merge_tree_structures (merge_tree_structures t₁ t₂) t₂ =
      merge_tree_structures t₁ t₂ := by
  unfold merge_tree_structures
  by_cases h1 : t₁ = "" <;> by_cases h2 : t₂ = "" <;> simp [h1, h2]

theorem lastIdxOfPaths_lt (p : String) :
    ∀ (qs : List String) (j : Nat), lastIdxOfPaths p qs = some j →
      j < qs.length := by
  intro qs
  induction qs with
  | nil => intro j h; simp [lastIdxOfPaths] at h
  | cons q qs ih =>
    intro j h
    rcases hq : lastIdxOfPaths p qs with _ | j'
    · simp only [lastIdxOfPaths, hq] at h
      split at h
      · cases h
        simp
      · cases h
    · simp only [lastIdxOfPaths, hq] at h
      cases h
      have := ih j' hq
      simp
      omega

theorem lastIdxOfPaths_append_last (p : String) :
    ∀ (qs : List String), lastIdxOfPaths p (qs ++ [p]) = some qs.length := by
  intro qs
  induction qs with
  | nil => simp [lastIdxOfPaths]
  | cons q qs ih =>
    simp only [List.cons_append, lastIdxOfPaths, List.append_eq, ih,
      List.length_cons]

theorem listModify_length {α : Type} :
    ∀ (l : List α) (i : Nat) (f : α → α),
      (listModify l i f).length = l.length := by
  intro l
  induction l with
  | nil => intro i f; rfl
  | cons a as ih =>
    intro i f
    match i with
    | 0 => rfl
    | i + 1 => simp [listModify, ih]

theorem listModify_map {α β : Type} (g : α → β) :
    ∀ (l : List α) (i : Nat) (f : α → α), (∀ a, g (f a) = g a) →
      (listModify l i f).map g = l.map g := by
  intro l
  induction l with
  | nil => intro i f _; rfl
  | cons a as ih =>
    intro i f h
    match i with
    | 0 => simp [listModify, h a]
    | i + 1 => simp [listModify, ih i f h]

theorem listModify_eq_self {α : Type} (d : α) :
    ∀ (l : List α) (i : Nat) (f : α → α), i < l.length →
      f (l.getD i d) = l.getD i d → listModify l i f = l := by
  intro l
  induction l with
  | nil => intro i f hi _; simp at hi
  | cons a as ih =>
    intro i f hi h
    match i with
    | 0 =>
      simp only [List.getD_cons_zero] at h
      simp [listModify, h]
    | i + 1 =>
      simp only [List.getD_cons_succ] at h
      simp only [listModify]
      rw [ih i f (by simpa using hi) h]

theorem listModify_getD {α : Type} (d : α) :
    ∀ (l : List α) (i : Nat) (f : α → α), i < l.length →
      (listModify l i f).getD i d = f (l.getD i d) := by
  intro l
  induction l with
  | nil => intro i f hi; simp at hi
  | cons a as ih =>
    intro i f hi
    match i with
    | 0 => simp [listModify]
    | i + 1 =>
      simp only [listModify, List.getD_cons_succ]
      exact ih i f (by simpa using hi)

theorem dedupAppend_of_sub (g : SnippetGroup) (news : List Snippet)
    (h : ∀ s ∈ news, snippetId s ∈ g.snippets.map snippetId) :
    dedupAppendSnippets g news = g := by
  unfold dedupAppendSnippets
  have hnil : news.filter
      (fun s => !((g.snippets.map snippetId).contains (snippetId s))) = [] := by
    rw [List.filter_eq_nil_iff]
    intro s hs
    have : (g.snippets.map snippetId).contains (snippetId s) = true :=
      List.elem_iff.mpr (h s hs)
    rw [this]
    decide
  rw [hnil, List.append_nil]

theorem dedupAppend_saturates (g : SnippetGroup) (news : List Snippet) :
    ∀ s ∈ news, snippetId s ∈
      (dedupAppendSnippets g news).snippets.map snippetId := by
  intro s hs
  unfold dedupAppendSnippets
  simp only
  rw [List.map_append, List.mem_append]
  by_cases hc : snippetId s ∈ g.snippets.map snippetId
  · exact Or.inl hc
  · right
    refine List.mem_map.mpr ⟨s, ?_, rfl⟩
    exact List.mem_filter.mpr ⟨hs, by simp [List.elem_iff, hc]⟩

theorem mergeSnippets_single_idem (S : List SnippetGroup)
    (g : SnippetGroup) :
    mergeSnippets (mergeSnippets S [g]) [g] = mergeSnippets S [g] := by
  unfold mergeSnippets
  simp only [List.foldl_cons, List.foldl_nil]
  rcases hidx : lastIdxOf S g.file_path with _ | i
  · have hM : mergeSnippetsStep S S g = S ++ [g] := by
      unfold mergeSnippetsStep
      rw [hidx]
    rw [hM]
    unfold mergeSnippetsStep
    have hidx2 : lastIdxOf (S ++ [g]) g.file_path = some S.length := by
      unfold lastIdxOf
      rw [List.map_append]
      simpa using lastIdxOfPaths_append_last g.file_path
        (S.map (·.file_path))
    rw [hidx2]
    apply listModify_eq_self ⟨"", []⟩ _ _ _ (by simp)
    have hget : (S ++ [g]).getD S.length (⟨"", []⟩ : SnippetGroup) = g := by
      simp [List.getD_eq_getElem?_getD, List.getElem?_append_right]
    rw [hget]
    exact dedupAppend_of_sub g g.snippets
      (fun s hs => List.mem_map.mpr ⟨s, hs, rfl⟩)
  · have hidx' : lastIdxOfPaths g.file_path (S.map (·.file_path)) = some i :=
      hidx
    have hlt : i < S.length := by
      have h' := lastIdxOfPaths_lt g.file_path (S.map (·.file_path)) i hidx'
      simpa using h'
    have hM : mergeSnippetsStep S S g =
        listModify S i (fun old => dedupAppendSnippets old g.snippets) := by
      unfold mergeSnippetsStep
      rw [hidx]
    rw [hM]
    unfold mergeSnippetsStep
    have hpaths : (listModify S i
        (fun old => dedupAppendSnippets old g.snippets)).map (·.file_path)
          = S.map (·.file_path) :=
      listModify_map _ S i _ (fun a => rfl)
    have hidx2 : lastIdxOf (listModify S i
        (fun old => dedupAppendSnippets old g.snippets)) g.file_path
          = some i := by
      unfold lastIdxOf
      rw [hpaths]
      exact hidx
    rw [hidx2]
    apply listModify_eq_self ⟨"", []⟩ _ _ _ (by rw [listModify_length]; exact hlt)
    rw [listModify_getD _ S i _ hlt]
    exact dedupAppend_of_sub _ g.snippets
      (dedupAppend_saturates (S.getD i ⟨"", []⟩) g.snippets)

/-! Field-projection lemmas for `merge_markdown_data`. -/

theorem merge_header_proj (is_core : String → Bool) (S : MDSnapshot)
    (R : PartialResult) :
    (merge_markdown_data is_core S R).header = S.header := rfl

theorem merge_files_of_none (is_core : String → Bool) (S : MDSnapshot)
    (R : PartialResult) (h : R.files = none) :
    (merge_markdown_data is_core S R).files = S.files := by
  simp [merge_markdown_data, h]

theorem merge_files_of_some (is_core : String → Bool) (S : MDSnapshot)
    (R : PartialResult) (fs : List FileInfo) (h : R.files = some fs) :
    (merge_markdown_data is_core S R).files = mergeFiles is_core S.files fs := by
  simp [merge_markdown_data, h]

theorem merge_snippets_of_none (is_core : String → Bool) (S : MDSnapshot)
    (R : PartialResult) (h : R.snippets = none) :
    (merge_markdown_data is_core S R).snippets = S.snippets := by
  simp [merge_markdown_data, h]

theorem merge_snippets_of_some (is_core : String → Bool) (S : MDSnapshot)
    (R : PartialResult) (gs : List SnippetGroup) (h : R.snippets = some gs) :
    (merge_markdown_data is_core S R).snippets =
      mergeSnippets S.snippets gs := by
  simp [merge_markdown_data, h]

theorem merge_tree_of_none (is_core : String → Bool) (S : MDSnapshot)
    (R : PartialResult) (h : R.tree = none) :
    (merge_markdown_data is_core S R).tree = S.tree := by
  simp [merge_markdown_data, h]

theorem merge_tree_of_some (is_core : String → Bool) (S : MDSnapshot)
    (R : PartialResult) (t : String) (h : R.tree = some t) :
    (merge_markdown_data is_core S R).tree =
      if t ≠ "" then merge_tree_structures S.tree t else S.tree := by
  simp only [merge_markdown_data, h]

theorem merge_stats_of_none (is_core : String → Bool) (S : MDSnapshot)
    (R : PartialResult) (h : R.stats = none) :
    (merge_markdown_data is_core S R).stats = S.stats := by
  simp [merge_markdown_data, h]

theorem merge_total_files_of_some (is_core : String → Bool) (S : MDSnapshot)
    (R : PartialResult) (ns : Stats) (h : R.stats = some ns) :
    (merge_markdown_data is_core S R).stats.total_files =
      (merge_markdown_data is_core S R).files.core.length +
        (merge_markdown_data is_core S R).files.other.length +
        (merge_markdown_data is_core S R).snippets.length := by
  simp [merge_markdown_data, h]

theorem merge_total_lines_of_some (is_core : String → Bool) (S : MDSnapshot)
    (R : PartialResult) (ns : Stats) (h : R.stats = some ns) :
    (merge_markdown_data is_core S R).stats.total_lines =
      S.stats.total_lines + ns.total_lines := by
  simp [merge_markdown_data, h]

theorem merge_languages_of_some (is_core : String → Bool) (S : MDSnapshot)
    (R : PartialResult) (ns : Stats) (h : R.stats = some ns) :
    (merge_markdown_data is_core S R).stats.languages =
      mergeLanguages S.stats.languages ns.languages := by
  simp [merge_markdown_data, h]

/-! ### Claim C1: merge idempotence -/

/-- C1 (amended): for a partial result shaped like a producer's output
(a `batch_import` result has no `snippets` key; an `extract_snippets`
result has exactly one snippet group and no `skipped_files` key), merging
it a second time changes nothing **except** the `total_lines` and
`languages` statistics, which are accumulated additively on every merge:
the header, file buckets, snippet groups, directory structure, skipped
entries and the recomputed `total_files` statistic are all unchanged. -/
theorem C1_amended_merge_idempotent (is_core : String → Bool)
    (S : MDSnapshot) (R : PartialResult)
    (h : R.snippets = none ∨
      ((∃ g, R.snippets = some [g]) ∧ R.skipped_files = none)) :
    (merge_markdown_data is_core (merge_markdown_data is_core S R) R).header
        = (merge_markdown_data is_core S R).header ∧
      (merge_markdown_data is_core (merge_markdown_data is_core S R) R).files
        = (merge_markdown_data is_core S R).files ∧
      (merge_markdown_data is_core (merge_markdown_data is_core S R) R).snippets
        = (merge_markdown_data is_core S R).snippets ∧
      (merge_markdown_data is_core (merge_markdown_data is_core S R) R).tree
        = (merge_markdown_data is_core S R).tree ∧
      (merge_markdown_data is_core
          (merge_markdown_data is_core S R) R).skipped_files
        = (merge_markdown_data is_core S R).skipped_files ∧
      (merge_markdown_data is_core
          (merge_markdown_data is_core S R) R).stats.total_files
        = (merge_markdown_data is_core S R).stats.total_files := by
  have hfiles : (merge_markdown_data is_core
      (merge_markdown_data is_core S R) R).files
        = (merge_markdown_data is_core S R).files := by
    rcases hf : R.files with _ | fs
    · rw [merge_files_of_none is_core _ R hf,
        merge_files_of_none is_core S R hf]
    · rw [merge_files_of_some is_core _ R fs hf,
        merge_files_of_some is_core S R fs hf]
      exact mergeFiles_idem is_core S.files fs
  have hsnips : (merge_markdown_data is_core
      (merge_markdown_data is_core S R) R).snippets
        = (merge_markdown_data is_core S R).snippets := by
    rcases h with hn | ⟨⟨g, hg⟩, _⟩
    · rw [merge_snippets_of_none is_core _ R hn,
        merge_snippets_of_none is_core S R hn]
    · rw [merge_snippets_of_some is_core _ R _ hg,
        merge_snippets_of_some is_core S R _ hg]
      exact mergeSnippets_single_idem S.snippets g
  have htree : (merge_markdown_data is_core
      (merge_markdown_data is_core S R) R).tree
        = (merge_markdown_data is_core S R).tree := by
    rcases ht : R.tree with _ | t
    · rw [merge_tree_of_none is_core _ R ht, merge_tree_of_none is_core S R ht]
    · rw [merge_tree_of_some is_core _ R t ht,
        merge_tree_of_some is_core S R t ht]
      by_cases hte : t = ""
      · simp [hte]
      · simp only [ne_eq, hte, not_false_eq_true, if_true]
        exact merge_tree_idem S.tree t
  have hskip : (merge_markdown_data is_core
      (merge_markdown_data is_core S R) R).skipped_files
        = (merge_markdown_data is_core S R).skipped_files := by
    rw [merge_skipped_eq is_core _ R]
    rcases h with hn | ⟨⟨g, hg⟩, hskn⟩
    · simp only [mergeSkipped, mergeSkippedStage1, hn]
      rcases hsk : R.skipped_files with _ | ns
      · rfl
      · have hm : (merge_markdown_data is_core S R).skipped_files =
            appendSkipped S.skipped_files ns := by
          rw [merge_skipped_eq]
          simp only [mergeSkipped, mergeSkippedStage1, hn, hsk]
        rw [hm]
        exact appendSkipped_idem _ _
    · simp only [mergeSkipped, mergeSkippedStage1, hg, hskn]
      have hm : (merge_markdown_data is_core S R).skipped_files =
          removeExtracted S.skipped_files [g] := by
        rw [merge_skipped_eq]
        simp only [mergeSkipped, mergeSkippedStage1, hg, hskn]
      rw [hm]
      exact removeExtracted_idem _ _
  refine ⟨merge_header_proj is_core _ R, hfiles, hsnips, htree, hskip, ?_⟩
  rcases hst : R.stats with _ | ns
  · rw [merge_stats_of_none is_core _ R hst]
  · rw [merge_total_files_of_some is_core _ R ns hst,
      merge_total_files_of_some is_core S R ns hst, hfiles, hsnips]

/-! Concrete sample data shared by the merge-claim witnesses and
counterexamples. -/

def sampleSkipped : SkippedFile := ⟨"a.py", "too large", none, none⟩

def sampleSnapshot : MDSnapshot :=
  ⟨"# Project\n", ⟨[], []⟩, [], "", ⟨0, 0, []⟩, [sampleSkipped]⟩

/-- A partial result shaped like an `extract_snippets` output. -/
def sampleSnippetResult : PartialResult :=
  ⟨none, some [⟨"b.py", [⟨"function", some "f", none, "def f():\n    pass", 2⟩]⟩],
    none, some ⟨1, 2, [("python", 1)]⟩, none⟩

/-- C1 counterexample: merging the same `extract_snippets`-shaped partial
result twice is **not** the same as merging it once — the second merge adds
`total_lines` and the per-language counts again. -/
theorem C1_counterexample :
    merge_markdown_data (fun _ => false)
        (merge_markdown_data (fun _ => false) sampleSnapshot
          sampleSnippetResult) sampleSnippetResult ≠
      merge_markdown_data (fun _ => false) sampleSnapshot
        sampleSnippetResult := by
  decide

theorem C1_amended_merge_idempotent_witness :
    (sampleSnippetResult.snippets = none ∨
      ((∃ g, sampleSnippetResult.snippets = some [g]) ∧
        sampleSnippetResult.skipped_files = none)) ∧
      ((merge_markdown_data (fun _ => false)
            (merge_markdown_data (fun _ => false) sampleSnapshot
              sampleSnippetResult) sampleSnippetResult).header
          = (merge_markdown_data (fun _ => false) sampleSnapshot
              sampleSnippetResult).header ∧
        (merge_markdown_data (fun _ => false)
            (merge_markdown_data (fun _ => false) sampleSnapshot
              sampleSnippetResult) sampleSnippetResult).files
          = (merge_markdown_data (fun _ => false) sampleSnapshot
              sampleSnippetResult).files ∧
        (merge_markdown_data (fun _ => false)
            (merge_markdown_data (fun _ => false) sampleSnapshot
              sampleSnippetResult) sampleSnippetResult).snippets
          = (merge_markdown_data (fun _ => false) sampleSnapshot
              sampleSnippetResult).snippets ∧
        (merge_markdown_data (fun _ => false)
            (merge_markdown_data (fun _ => false) sampleSnapshot
              sampleSnippetResult) sampleSnippetResult).tree
          = (merge_markdown_data (fun _ => false) sampleSnapshot
              sampleSnippetResult).tree ∧
        (merge_markdown_data (fun _ => false)
            (merge_markdown_data (fun _ => false) sampleSnapshot
              sampleSnippetResult) sampleSnippetResult).skipped_files
          = (merge_markdown_data (fun _ => false) sampleSnapshot
              sampleSnippetResult).skipped_files ∧
        (merge_markdown_data (fun _ => false)
            (merge_markdown_data (fun _ => false) sampleSnapshot
              sampleSnippetResult) sampleSnippetResult).stats.total_files
          = (merge_markdown_data (fun _ => false) sampleSnapshot
              sampleSnippetResult).stats.total_files) :=
  ⟨Or.inr ⟨⟨_, rfl⟩, rfl⟩,
    C1_amended_merge_idempotent (fun _ => false) sampleSnapshot
      sampleSnippetResult (Or.inr ⟨⟨_, rfl⟩, rfl⟩)⟩

theorem C7_skipped_never_lost_witness :
    sampleSkipped ∈ sampleSnapshot.skipped_files ∧
      sampleSkipped.path ∉ extractedPaths sampleSnippetResult ∧
      sampleSkipped ∈ (merge_markdown_data (fun _ => false) sampleSnapshot
        sampleSnippetResult).skipped_files :=
  ⟨by decide, by decide,
    (C7_skipped_never_lost (fun _ => false) sampleSnapshot
      sampleSnippetResult).1 sampleSkipped (by decide) (by decide)⟩

/-! ### Claim C2: merged statistics -/

/-- Dict lookup with default 0 (`d.get(lang, 0)`): the first entry with
the key (a well-formed Python dict has at most one). -/
def lookupCount : List (String × Nat) → String → Nat
  | [], _ => 0
  | kv :: d, k => if kv.1 = k then kv.2 else lookupCount d k

/-- Total count recorded for key `k`. -/
def sumCounts (d : List (String × Nat)) (k : String) : Nat :=
  ((d.filter (fun kv => kv.1 == k)).map (·.2)).sum

theorem lookupCount_mapAdd_ne (k k' : String) (v : Nat) (hne : k' ≠ k) :
    ∀ d : List (String × Nat),
      lookupCount
          (d.map (fun kv => if kv.1 = k then (kv.1, kv.2 + v) else kv)) k'
        = lookupCount d k' := by
  intro d
  induction d with
  | nil => rfl
  | cons a d ih =>
    by_cases hak : a.1 = k
    · have hne1 : ¬(a.1 = k') := fun hc => hne (by rw [← hc]; exact hak)
      simp only [List.map_cons, if_pos hak, lookupCount]
      rw [if_neg hne1, if_neg hne1]
      exact ih
    · simp only [List.map_cons, if_neg hak, lookupCount]
      by_cases h1 : a.1 = k'
      · rw [if_pos h1, if_pos h1]
      · rw [if_neg h1, if_neg h1]
        exact ih

theorem lookupCount_mapAdd_eq (k : String) (v : Nat) :
    ∀ d : List (String × Nat), d.any (fun kv => kv.1 == k) = true →
      lookupCount
          (d.map (fun kv => if kv.1 = k then (kv.1, kv.2 + v) else kv)) k
        = lookupCount d k + v := by
  intro d
  induction d with
  | nil => intro h; simp at h
  | cons a d ih =>
    intro h
    by_cases hak : a.1 = k
    · simp only [List.map_cons, if_pos hak, lookupCount]
    · simp only [List.any_cons, Bool.or_eq_true] at h
      rcases h with h | h
      · exact absurd (by simpa using h) hak
      · simp only [List.map_cons, if_neg hak, lookupCount]
        exact ih h

theorem lookupCount_append_ne (k k' : String) (v : Nat) (hne : k' ≠ k) :
    ∀ d : List (String × Nat),
      lookupCount (d ++ [(k, v)]) k' = lookupCount d k' := by
  intro d
  induction d with
  | nil =>
    simp only [List.nil_append, lookupCount]
    rw [if_neg (fun hc => hne hc.symm)]
  | cons a d ih =>
    simp only [List.cons_append, lookupCount]
    by_cases h1 : a.1 = k'
    · rw [if_pos h1, if_pos h1]
    · rw [if_neg h1, if_neg h1]
      exact ih

theorem lookupCount_append_eq (k : String) (v : Nat) :
    ∀ d : List (String × Nat), d.any (fun kv => kv.1 == k) = false →
      lookupCount (d ++ [(k, v)]) k = lookupCount d k + v := by
  intro d
  induction d with
  | nil => intro _; simp [lookupCount]
  | cons a d ih =>
    intro h
    simp only [List.any_cons, Bool.or_eq_false_iff] at h
    have hak : ¬(a.1 = k) := by simpa using h.1
    simp only [List.cons_append, lookupCount]
    rw [if_neg hak, if_neg hak]
    exact ih h.2

theorem lookupCount_dictAdd (d : List (String × Nat)) (k k' : String)
    (v : Nat) :
    lookupCount (dictAdd d k v) k'
      = lookupCount d k' + if k' = k then v else 0 := by
  unfold dictAdd
  by_cases hany : d.any (fun kv => kv.1 == k) = true
  · rw [if_pos hany]
    by_cases hk' : k' = k
    · subst hk'
      rw [lookupCount_mapAdd_eq k' v d hany]
      simp
    · rw [lookupCount_mapAdd_ne k k' v hk' d]
      simp [hk']
  · rw [if_neg hany]
    have hany' : d.any (fun kv => kv.1 == k) = false := by
      cases hb : d.any (fun kv => kv.1 == k)
      · rfl
      · exact absurd hb hany
    by_cases hk' : k' = k
    · subst hk'
      rw [lookupCount_append_eq k' v d hany']
      simp
    · rw [lookupCount_append_ne k k' v hk' d]
      simp [hk']

theorem sumCounts_cons (kv : String × Nat) (tl : List (String × Nat))
    (k : String) :
    sumCounts (kv :: tl) k
      = (if kv.1 = k then kv.2 else 0) + sumCounts tl k := by
  unfold sumCounts
  by_cases hk : kv.1 = k
  · rw [List.filter_cons_of_pos (by simp [hk])]
    simp [hk]
  · rw [List.filter_cons_of_neg (by simp [hk])]
    simp [hk]

theorem lookupCount_mergeLanguages (k : String) :
    ∀ (new old : List (String × Nat)),
      lookupCount (mergeLanguages old new) k
        = lookupCount old k + sumCounts new k := by
  intro new
  induction new with
  | nil => intro old; simp [mergeLanguages, sumCounts]
  | cons kv tl ih =>
    intro old
    have hstep : mergeLanguages old (kv :: tl)
        = mergeLanguages (dictAdd old kv.1 kv.2) tl := by
      simp [mergeLanguages]
    rw [hstep, ih (dictAdd old kv.1 kv.2), lookupCount_dictAdd,
      sumCounts_cons]
    by_cases hkk : kv.1 = k
    · rw [if_pos hkk, if_pos hkk.symm]
      omega
    · rw [if_neg hkk, if_neg (fun hc => hkk hc.symm)]
      omega

/-- Modelled from the claim's words: the total line count recomputed from
the final merged file and snippet collections (as `parse_existing_markdown`
does, by counting the lines of each recorded content). -/
def recomputedTotalLines (M : MDSnapshot) : Nat :=
  ((M.files.core ++ M.files.other).map
      (fun f => (pySplitlines f.content).length)).sum +
    (M.snippets.map
      (fun g => (g.snippets.map
        (fun s => (pySplitlines s.content).length)).sum)).sum

/-- C2 (amended): after `merge_markdown_data(old, new)` with a `stats` key
present in `new`, `total_files` is recomputed from the final merged
collections (file records plus snippet groups); the `languages` map equals
the prior map with the new result's per-language counts added on top; but
`total_lines` is **not** recomputed — it is the sum of the old snapshot's
`total_lines` and the new result's `total_lines`, i.e. carried additively
from the stale numbers. -/
theorem C2_amended_stats (is_core : String → Bool) (S : MDSnapshot)
    (R : PartialResult) (ns : Stats) (h : R.stats = some ns) :
    (merge_markdown_data is_core S R).stats.total_files =
        (merge_markdown_data is_core S R).files.core.length +
          (merge_markdown_data is_core S R).files.other.length +
          (merge_markdown_data is_core S R).snippets.length ∧
      (merge_markdown_data is_core S R).stats.total_lines =
        S.stats.total_lines + ns.total_lines ∧
      ∀ lang, lookupCount (merge_markdown_data is_core S R).stats.languages
          lang
        = lookupCount S.stats.languages lang + sumCounts ns.languages lang := by
  refine ⟨merge_total_files_of_some is_core S R ns h,
    merge_total_lines_of_some is_core S R ns h, ?_⟩
  intro lang
  rw [merge_languages_of_some is_core S R ns h]
  exact lookupCount_mergeLanguages lang ns.languages S.stats.languages

/-- A batch-shaped snapshot/result pair whose file is already present:
the file is deduplicated away but its lines are added again. -/
def sampleFile : FileInfo := ⟨"a.py", "l1\nl2", "python", 2⟩

def sampleBatchSnapshot : MDSnapshot :=
  ⟨"", ⟨[sampleFile], []⟩, [], "", ⟨1, 2, [("python", 1)]⟩, []⟩

def sampleBatchResult : PartialResult :=
  ⟨some [sampleFile], none, some "", some ⟨1, 2, [("python", 1)]⟩, some []⟩

/-- C2 counterexample: re-importing the same 2-line file and merging makes
`total_lines = 4`, while the sum of line counts of the files and snippets
actually present after the merge is 2 — `total_lines` is carried
additively from stale numbers, not recomputed. -/
theorem C2_counterexample :
    (merge_markdown_data (fun _ => false) sampleBatchSnapshot
          sampleBatchResult).stats.total_lines = 4 ∧
      recomputedTotalLines (merge_markdown_data (fun _ => false)
          sampleBatchSnapshot sampleBatchResult) = 2 ∧
      (merge_markdown_data (fun _ => false) sampleBatchSnapshot
          sampleBatchResult).stats.total_lines ≠
        recomputedTotalLines (merge_markdown_data (fun _ => false)
          sampleBatchSnapshot sampleBatchResult) := by
  decide

theorem C2_amended_stats_witness :
    (merge_markdown_data (fun _ => false) sampleBatchSnapshot
          sampleBatchResult).stats.total_files =
        (merge_markdown_data (fun _ => false) sampleBatchSnapshot
            sampleBatchResult).files.core.length +
          (merge_markdown_data (fun _ => false) sampleBatchSnapshot
            sampleBatchResult).files.other.length +
          (merge_markdown_data (fun _ => false) sampleBatchSnapshot
            sampleBatchResult).snippets.length ∧
      (merge_markdown_data (fun _ => false) sampleBatchSnapshot
          sampleBatchResult).stats.total_lines =
        sampleBatchSnapshot.stats.total_lines + (2 : Nat) ∧
      lookupCount (merge_markdown_data (fun _ => false) sampleBatchSnapshot
          sampleBatchResult).stats.languages "python"
        = lookupCount sampleBatchSnapshot.stats.languages "python" +
            sumCounts [("python", 1)] "python" :=
  ⟨(C2_amended_stats (fun _ => false) sampleBatchSnapshot sampleBatchResult
      ⟨1, 2, [("python", 1)]⟩ rfl).1,
    (C2_amended_stats (fun _ => false) sampleBatchSnapshot sampleBatchResult
      ⟨1, 2, [("python", 1)]⟩ rfl).2.1,
    (C2_amended_stats (fun _ => false) sampleBatchSnapshot sampleBatchResult
      ⟨1, 2, [("python", 1)]⟩ rfl).2.2 "python"⟩

/-! ## `batch_import` (src/scripts/code_collector.py lines 46-142 and
src/code_collector.py lines 28-107)

Filesystem access, language detection, relative-path computation, the junk
predicate, the cleaner functions and the tree renderer are external
collaborators (spec §1, §6); they are fields of `BatchEnv`.  `fs p = none`
models `not abs_path.exists() or not abs_path.is_file()` for the resolved
path.  Sizes are in bytes; `size_kb > max_kb` is the exact rational
comparison `bytes / 1024 > max_kb`, i.e. `bytes > max_kb * 1024`. -/

structure FSEntry where
  sizeBytes : Nat
  /-- `_read_file_safely` result: `none` = undecodable. -/
  content : Option String
  /-- `_count_lines` result for the too-large record. -/
  lineEstimate : Option Nat

structure BatchEnv where
  fs : String → Option FSEntry
  maxKb : Nat
  removeJunk : Bool
  hasCleaner : Bool
  isJunk : String → Bool
  cleanMode : String
  removeCommentsFn : String → String → String
  skeletonFn : String → String → String
  language : String → String
  relPath : String → String
  ext : String → String
  mkTree : List String → String
  /-- the formatted too-large reason string (float formatting is outside
  the model). -/
  tooLargeReason : Nat → String

/-- The loop state: `result["files"]`, `collected_paths`,
`result["skipped_files"]`, `result["stats"]["total_lines"]`,
`result["stats"]["languages"]`. -/
structure BatchAcc where
  files : List FileInfo
  collected : List String
  skipped : List SkippedFile
  total_lines : Nat
  languages : List (String × Nat)

/-- One iteration of the `for file_path in file_paths` loop
(lines 71-135 of `src/scripts/code_collector.py`). -/
def batchStep (env : BatchEnv) (acc : BatchAcc) (file_path : String) :
    BatchAcc :=
  match env.fs file_path with
  | none => acc
  | some entry =>
    if entry.sizeBytes > env.maxKb * 1024 then
      { acc with skipped := acc.skipped ++
          [⟨file_path, env.tooLargeReason entry.sizeBytes,
            some ((entry.sizeBytes : ℚ) / 1024), some entry.lineEstimate⟩] }
    else
      match entry.content with
      | none =>
        { acc with skipped := acc.skipped ++
            [⟨file_path, "编码错误，无法读取", none, none⟩] }
      | some content₀ =>
        let rel := env.relPath file_path
        if env.removeJunk && env.hasCleaner && env.isJunk rel then
          { acc with skipped := acc.skipped ++
              [⟨file_path, "垃圾文件（自动过滤）", none, none⟩] }
        else
          let content :=
            if env.hasCleaner && (env.cleanMode != "none") then
              if env.cleanMode = "comments" then
                env.removeCommentsFn content₀ (env.ext file_path)
              else if env.cleanMode = "skeleton" then
                env.skeletonFn content₀ (env.ext file_path)
              else content₀
            else content₀
          let language := env.language file_path
          let lineCount := (pySplitlines content).length
          { files := acc.files ++ [⟨rel, content, language, lineCount⟩],
            collected := acc.collected ++ [rel],
            skipped := acc.skipped,
            total_lines := acc.total_lines + lineCount,
            languages := dictAdd acc.languages language 1 }

structure BatchResult where
  files : List FileInfo
  tree : String
  stats : Stats
  skipped_files : List SkippedFile
deriving DecidableEq, Repr

/-- `batch_import`: the loop, then `total_files = len(files)` and the tree
rendered from the collected relative paths. -/
def batch_import (env : BatchEnv) (file_paths : List String) : BatchResult :=
  let acc := file_paths.foldl (batchStep env) ⟨[], [], [], 0, []⟩
  ⟨acc.files, env.mkTree acc.collected,
    ⟨acc.files.length, acc.total_lines, acc.languages⟩, acc.skipped⟩

theorem batch_foldl_filter (env : BatchEnv) :
    ∀ (paths : List String) (acc : BatchAcc),
      paths.foldl (batchStep env) acc =
        (paths.filter (fun p => (env.fs p).isSome)).foldl (batchStep env)
          acc := by
  intro paths
  induction paths with
  | nil => intro acc; rfl
  | cons p ps ih =>
    intro acc
    rcases hfs : env.fs p with _ | entry
    · have hstep : batchStep env acc p = acc := by
        unfold batchStep
        rw [hfs]
      rw [List.foldl_cons, hstep, List.filter_cons_of_neg (by simp [hfs])]
      exact ih acc
    · rw [List.filter_cons_of_pos (by simp [hfs]), List.foldl_cons,
        List.foldl_cons]
      exact ih _

/-- C10: a path whose resolution does not exist or is not a regular file is
silently omitted by `batch_import`: the result (file records, directory
tree, stats and skipped entries alike) is identical to the result on the
input list with all such paths removed — so such a path contributes
neither a file record nor a skipped entry, and only paths resolving to
existing regular files can contribute anything. -/
theorem C10_nonexistent_paths_omitted (env : BatchEnv)
    (file_paths : List String) :
    batch_import env file_paths =
      batch_import env (file_paths.filter (fun p => (env.fs p).isSome)) := by
  unfold batch_import
  rw [batch_foldl_filter env file_paths]

end CodeFeeder
